import Mathlib

/-!
# FinanzasPersonalesAppsScript: `processMonthlyTransactions`

A shallow embedding of `src/Código.js`.

* Text is `List Char` (one element per character of the script's strings).
* The regular expressions of the script are sequences of `Atom`s, run by a
  backtracking matcher with the leftmost-first search of `String.prototype.match`.
* Numbers are exact decimals; dates are time values with the day-number arithmetic
  of the `Date` object.
* The host services (Gmail, Drive, Sheets) are an explicit state; every service
  call consults a fault oracle, appends to an effect trace, and may throw.
-/

namespace Finanzas

/-! ## Text -/

/-- Text of the script: a list of characters. -/
abbrev Str := List Char

/-- Code points of the `WhiteSpace` and `LineTerminator` productions: what the
regular-expression class `\s` matches and what `trim` strips. -/
def whiteSpaceCodes : List Nat :=
  [9, 10, 11, 12, 13, 32, 160, 5760, 8192, 8193, 8194, 8195, 8196, 8197, 8198, 8199,
   8200, 8201, 8202, 8232, 8233, 8239, 8287, 12288, 65279]

/-- Class `\s`. -/
def isSpace (c : Char) : Bool := whiteSpaceCodes.contains c.toNat

/-- Class `\d`: the code points of `0` to `9`. -/
def isDigit (c : Char) : Bool := decide (48 ≤ c.toNat) && decide (c.toNat ≤ 57)

/-- Class `[\s\S]`: any character. -/
def anyChar (_ : Char) : Bool := true

/-- Class `[^>]`. -/
def notGt (c : Char) : Bool := !(c == '>')

/-- Class `[\d.,]`. -/
def isNumeralChar (c : Char) : Bool := isDigit c || c == '.' || c == ','

/-- Method `trim`: strips white space from both ends. -/
def trim (s : Str) : Str := ((s.dropWhile isSpace).reverse.dropWhile isSpace).reverse

/-- Call `.replace(/<\/?p>/g, '')`: one left-to-right pass deleting each match of
`<\/?p>`; scanning resumes after a deleted match. -/
def removeParagraphTags : Str → Str
  | [] => []
  | '<' :: 'p' :: '>' :: rest => removeParagraphTags rest
  | '<' :: '/' :: 'p' :: '>' :: rest => removeParagraphTags rest
  | c :: rest => c :: removeParagraphTags rest

/-- Call `.replace(/\r?\n/g, '')`: one left-to-right pass deleting each match of
`\r?\n`. -/
def removeLineBreaks : Str → Str
  | [] => []
  | '\r' :: '\n' :: rest => removeLineBreaks rest
  | '\n' :: rest => removeLineBreaks rest
  | c :: rest => c :: removeLineBreaks rest

/-- Chain `.replace(/<\/?p>/g, '').replace(/\r?\n/g, '').trim()` of lines 142 and 166. -/
def clean (s : Str) : Str := trim (removeLineBreaks (removeParagraphTags s))

/-! ## Regular expressions -/

/-- One item of a pattern. Quantifiers range over a character class, as in every
pattern of the script; `cap` marks a quantified class enclosed in a capturing group. -/
inductive Atom where
  | lit (s : Str)
  | alt (s t : Str)
  | star (greedy : Bool) (cls : Char → Bool) (cap : Bool)
  | plus (cls : Char → Bool) (cap : Bool)

/-- Strip a literal from the front of the input. -/
def stripLit : Str → Str → Option Str
  | [], inp => some inp
  | _ :: _, [] => none
  | a :: s, c :: inp => if a = c then stripLit s inp else none

/-- Lazy `cls*?` followed by continuation `k`: try the continuation first, consume
one more character only when it fails. `acc` is the text consumed so far. -/
def lazyStar {R : Type} (cls : Char → Bool) (k : Str → Str → Option R) : Str → Str → Option R
  | acc, [] => k acc []
  | acc, c :: cs =>
    match k acc (c :: cs) with
    | some r => some r
    | none => if cls c then lazyStar cls k (acc ++ [c]) cs else none

/-- Greedy `cls*` followed by continuation `k`: consume as much as possible, give
characters back one at a time while the continuation fails. -/
def greedyStar {R : Type} (cls : Char → Bool) (k : Str → Str → Option R) : Str → Str → Option R
  | acc, [] => k acc []
  | acc, c :: cs =>
    if cls c then
      match greedyStar cls k (acc ++ [c]) cs with
      | some r => some r
      | none => k acc (c :: cs)
    else k acc (c :: cs)

/-- Record a captured text in front of the later captures. -/
def pushCap (cap : Bool) (w : Str) (r : Option (List Str)) : Option (List Str) :=
  r.map fun caps => if cap then w :: caps else caps

/-- Match a pattern at the front of the input; the result lists the texts of the
capturing groups, in order. -/
def matchAtoms : List Atom → Str → Option (List Str)
  | [], _ => some []
  | Atom.lit s :: rest, inp =>
    match stripLit s inp with
    | some t => matchAtoms rest t
    | none => none
  | Atom.alt s t :: rest, inp =>
    match (stripLit s inp).bind (matchAtoms rest) with
    | some r => some r
    | none => (stripLit t inp).bind (matchAtoms rest)
  | Atom.star true cls cap :: rest, inp =>
    greedyStar cls (fun w t => pushCap cap w (matchAtoms rest t)) [] inp
  | Atom.star false cls cap :: rest, inp =>
    lazyStar cls (fun w t => pushCap cap w (matchAtoms rest t)) [] inp
  | Atom.plus cls cap :: rest, inp =>
    match inp with
    | [] => none
    | c :: cs =>
      if cls c then greedyStar cls (fun w t => pushCap cap w (matchAtoms rest t)) [c] cs
      else none

/-- Method `match` with a non-global pattern: the match at the leftmost start
position where the pattern matches. -/
def jsMatch (re : List Atom) : Str → Option (List Str)
  | [] => matchAtoms re []
  | c :: cs =>
    match matchAtoms re (c :: cs) with
    | some r => some r
    | none => jsMatch re cs

/-- Tail shared by the four text patterns:
`(?:[\s\S]*?)<td[^>]*>[\s\S]*?<p>([\s\S]*?)<\/p>[\s\S]*?<\/td>`. -/
def paragraphCellTail : List Atom :=
  [Atom.star false anyChar false, Atom.lit "<td".data, Atom.star true notGt false,
   Atom.lit ">".data, Atom.star false anyChar false, Atom.lit "<p>".data,
   Atom.star false anyChar true, Atom.lit "</p>".data, Atom.star false anyChar false,
   Atom.lit "</td>".data]

/-- Pattern `/Comercio(?:[\s\S]*?)<td[^>]*>[\s\S]*?<p>([\s\S]*?)<\/p>[\s\S]*?<\/td>/`. -/
def comercioRegex : List Atom := Atom.lit "Comercio".data :: paragraphCellTail

/-- Pattern `/Ciudad y pa(?:&iacute;|í)s:(?:[\s\S]*?)<td[^>]*>…<\/td>/`. -/
def ciudadPaisRegex : List Atom :=
  Atom.lit "Ciudad y pa".data :: Atom.alt "&iacute;".data "í".data :: Atom.lit "s:".data ::
    paragraphCellTail

/-- Pattern `/Fecha:(?:[\s\S]*?)<td[^>]*>…<\/td>/`. -/
def fechaRegex : List Atom := Atom.lit "Fecha:".data :: paragraphCellTail

/-- Pattern `/Tipo de Transacci(?:&oacute;|ó)n:(?:[\s\S]*?)<td[^>]*>…<\/td>/`. -/
def tipoTransaccionRegex : List Atom :=
  Atom.lit "Tipo de Transacci".data :: Atom.alt "&oacute;".data "ó".data :: Atom.lit "n:".data ::
    paragraphCellTail

/-- Pattern `/Monto\s*:(?:[\s\S]*?)<td[^>]*>([\s\S]*?)<\/td>/`. -/
def montoFullTdRegex : List Atom :=
  [Atom.lit "Monto".data, Atom.star true isSpace false, Atom.lit ":".data,
   Atom.star false anyChar false, Atom.lit "<td".data, Atom.star true notGt false,
   Atom.lit ">".data, Atom.star false anyChar true, Atom.lit "</td>".data]

/-- Pattern `/CRC\s*([\d.,]+)/`. -/
def numberExtractRegex : List Atom :=
  [Atom.lit "CRC".data, Atom.star true isSpace false, Atom.plus isNumeralChar true]

/-- Sentinel `'N/A'`. -/
def notAvailable : Str := "N/A".data

/-- Function `extractAndClean` (lines 139-145): `match && match[1]` is falsy when
there is no match and when group 1 is the empty text. -/
def extractAndClean (body : Str) (regex : List Atom) : Str :=
  match jsMatch regex body with
  | some (w :: _) => if w = [] then notAvailable else clean w
  | _ => notAvailable

/-- Text starts with a `<p>` or `</p>` tag. -/
def opensTag : Str → Bool
  | '<' :: 'p' :: '>' :: _ => true
  | '<' :: '/' :: 'p' :: '>' :: _ => true
  | _ => false

/-- Every `<` of the text begins a `<p>` or `</p>` tag. -/
def everyLtOpensTag : Str → Bool
  | [] => true
  | c :: rest => (c != '<' || opensTag (c :: rest)) && everyLtOpensTag rest

/-! ## Numbers -/

/-- Number value of the script. A finite value is kept exactly, as the decimal
`mant * 10 ^ exp` that was read; the rounding of that decimal to a double is not
modelled. -/
inductive Num where
  | nan
  | infinity (negative : Bool)
  | dec (mant : Int) (exp : Int)
  deriving DecidableEq

/-- Exact rational value of a finite number. -/
def Num.value : Num → Option ℚ
  | Num.dec m e => some ((m : ℚ) * (10 : ℚ) ^ e)
  | _ => none

/-- Value of a decimal digit. -/
def digitVal (c : Char) : Nat := c.toNat - '0'.toNat

/-- Value of a run of decimal digits, most significant first. -/
def digitsToNat (ds : Str) : Nat := ds.foldl (fun n c => 10 * n + digitVal c) 0

/-- Optional `ExponentPart` of a decimal literal: `e` or `E`, an optional sign and
at least one digit; anything else contributes exponent `0`. -/
def exponentPart : Str → Int
  | [] => 0
  | c :: r =>
    if c = 'e' ∨ c = 'E' then
      match r with
      | '-' :: ds => if ds.takeWhile isDigit = [] then 0 else -(digitsToNat (ds.takeWhile isDigit) : Int)
      | '+' :: ds => if ds.takeWhile isDigit = [] then 0 else (digitsToNat (ds.takeWhile isDigit) : Int)
      | ds => if ds.takeWhile isDigit = [] then 0 else (digitsToNat (ds.takeWhile isDigit) : Int)
    else 0

/-- Unsigned part of `parseFloat`: the longest prefix that is `Infinity` or a decimal
literal (digits, optional fraction, optional exponent). -/
def parseUnsigned (negative : Bool) (s : Str) : Num :=
  if "Infinity".data <+: s then Num.infinity negative
  else
    let ip := s.takeWhile isDigit
    let r := s.dropWhile isDigit
    let fp := match r with
      | '.' :: r1 => r1.takeWhile isDigit
      | _ => []
    let r2 := match r with
      | '.' :: r1 => r1.dropWhile isDigit
      | _ => r
    if ip = [] ∧ fp = [] then Num.nan
    else
      let m : Int := (digitsToNat (ip ++ fp) : Int)
      Num.dec (if negative then -m else m) (exponentPart r2 - (fp.length : Int))

/-- Global function `parseFloat`: skips leading white space, reads an optional sign,
then the longest numeric prefix; `NaN` when there is none. -/
def parseFloat (s : Str) : Num :=
  match s.dropWhile isSpace with
  | '-' :: r => parseUnsigned true r
  | '+' :: r => parseUnsigned false r
  | r => parseUnsigned false r

/-- Expression `x || 0` on a number: `NaN` and zero are falsy. -/
def orZero : Num → Num
  | Num.nan => Num.dec 0 0
  | Num.dec m e => if m = 0 then Num.dec 0 0 else Num.dec m e
  | n => n

/-! ## Field extraction (lines 139-176) -/

/-- Lines 163-164: group 1 of `montoFullTdRegex`, or `''`. -/
def montoRawContent (body : Str) : Str :=
  match jsMatch montoFullTdRegex body with
  | some (w :: _) => w
  | _ => []

/-- Line 170: `numberMatch && numberMatch[1] ? numberMatch[1].trim() : '0.00'`. -/
def montoToken (cleanedMontoContent : Str) : Str :=
  match jsMatch numberExtractRegex cleanedMontoContent with
  | some (w :: _) => if w = [] then "0.00".data else trim w
  | _ => "0.00".data

/-- Line 171: `.replace(/\./g, '').replace(/,/g, '.')`. -/
def normalizeMonto (monto : Str) : Str :=
  (monto.filter fun c => c != '.').map fun c => if c = ',' then '.' else c

/-- Lines 166-172 on the raw content of the amount cell. -/
def amountOfCell (montoRawContent : Str) : Num :=
  orZero (parseFloat (normalizeMonto (montoToken (clean montoRawContent))))

/-- Lines 162-172: the amount of a message body. -/
def parsedMonto (body : Str) : Num := amountOfCell (montoRawContent body)

/-- Cell of a sheet row. -/
inductive Cell where
  | text (s : Str)
  | number (n : Num)
  deriving DecidableEq

/-- Line 175: `[comercio, ciudadPais, fecha, tipoTransaccion, parsedMonto]`. -/
def rowData (htmlBody : Str) : List Cell :=
  [Cell.text (extractAndClean htmlBody comercioRegex),
   Cell.text (extractAndClean htmlBody ciudadPaisRegex),
   Cell.text (extractAndClean htmlBody fechaRegex),
   Cell.text (extractAndClean htmlBody tipoTransaccionRegex),
   Cell.number (parsedMonto htmlBody)]

/-- Line 126: the header row. -/
def headers : List Cell :=
  [Cell.text "Comercio".data, Cell.text "Ciudad y País".data, Cell.text "Fecha".data,
   Cell.text "Tipo de Transacción".data, Cell.text "Monto".data]

/-! ## Date range (lines 23-31)

Time values are local milliseconds since 1970-01-01 00:00; the zone offset is taken
constant, so the local/UTC conversions of the constructor and the setters cancel. -/

/-- Constant `msPerDay`. -/
def msPerDay : Int := 86400000

/-- Abstract operation `DayFromYear`: day number of 1 January of year `y`. -/
def dayFromYear (y : Int) : Int :=
  365 * (y - 1970) + (y - 1969) / 4 - (y - 1901) / 100 + (y - 1601) / 400

/-- Leap years of the proleptic Gregorian calendar (`DaysInYear y = 366`). -/
def inLeapYear (y : Int) : Bool := (y % 4 = 0 && y % 100 != 0) || y % 400 = 0

/-- Day within the year on which month `m` (0 = January) starts, from the table of
`MonthFromTime`. -/
def monthStart (leap : Bool) (m : Int) : Int :=
  let l : Int := if leap then 1 else 0
  if m = 0 then 0 else if m = 1 then 31 else if m = 2 then 59 + l
  else if m = 3 then 90 + l else if m = 4 then 120 + l else if m = 5 then 151 + l
  else if m = 6 then 181 + l else if m = 7 then 212 + l else if m = 8 then 243 + l
  else if m = 9 then 273 + l else if m = 10 then 304 + l else 334 + l

/-- Abstract operation `MakeDay`: months outside 0..11 carry into the year. -/
def makeDay (year month date : Int) : Int :=
  let ym := year + month / 12
  let mn := month % 12
  dayFromYear ym + monthStart (inLeapYear ym) mn + date - 1

/-- Abstract operation `MakeTime`. -/
def makeTime (hour min sec ms : Int) : Int := hour * 3600000 + min * 60000 + sec * 1000 + ms

/-- Abstract operation `MakeDate`. -/
def makeDate (day time : Int) : Int := day * msPerDay + time

/-- Abstract operation `TimeClip`: `none` is the invalid date. -/
def timeClip (t : Int) : Option Int :=
  if -8640000000000000 ≤ t ∧ t ≤ 8640000000000000 then some t else none

/-- Constructor `new Date(year, month, date)`: a year from 0 to 99 means 1900 + year. -/
def newDate (year month date : Int) : Option Int :=
  let yr := if 0 ≤ year ∧ year ≤ 99 then 1900 + year else year
  timeClip (makeDate (makeDay yr month date) 0)

/-- Method `setHours(hour, min, sec, ms)`: keeps the day, replaces the time within it. -/
def setHours (t : Option Int) (hour min sec ms : Int) : Option Int :=
  t.bind fun tv => timeClip (makeDate (tv / msPerDay) (makeTime hour min sec ms))

/-- Abstract operation `Day`: the day number of a time value. -/
def dayOf (t : Int) : Int := t / msPerDay

/-- Abstract operation `YearFromTime`, on a day number: the year `y` with
`dayFromYear y ≤ d < dayFromYear (y + 1)`, found next to the estimate
`1970 + d / 365.2425`. -/
def yearFromDay (d : Int) : Int :=
  let y0 := 1970 + d * 400 / 146097
  if dayFromYear (y0 + 1) ≤ d then y0 + 1 else if dayFromYear y0 ≤ d then y0 else y0 - 1

/-- Table of `MonthFromTime`: the month that holds day `k` (from 0) of a year. -/
def monthInYear (leap : Bool) (k : Int) : Int :=
  let l : Int := if leap then 1 else 0
  if k < 31 then 0 else if k < 59 + l then 1 else if k < 90 + l then 2
  else if k < 120 + l then 3 else if k < 151 + l then 4 else if k < 181 + l then 5
  else if k < 212 + l then 6 else if k < 243 + l then 7 else if k < 273 + l then 8
  else if k < 304 + l then 9 else if k < 334 + l then 10 else 11

/-- Abstract operation `MonthFromTime`, on a day number. -/
def monthFromDay (d : Int) : Int :=
  monthInYear (inLeapYear (yearFromDay d)) (d - dayFromYear (yearFromDay d))

/-- Method `getFullYear()`. -/
def getFullYear (t : Int) : Int := yearFromDay (dayOf t)

/-- Method `getMonth()`: 0 is January. -/
def getMonth (t : Int) : Int := monthFromDay (dayOf t)

/-- Method `getDate()`: the day of the month, from 1. -/
def getDate (t : Int) : Int :=
  dayOf t - dayFromYear (getFullYear t) - monthStart (inLeapYear (getFullYear t)) (getMonth t) + 1

/-- Lines 25-26; `today` is the time value of `new Date()`. -/
def searchStartDate (today : Int) : Option Int :=
  setHours (newDate (getFullYear today) (getMonth today - 1) 1) 0 0 0 0

/-- Lines 30-31. -/
def searchEndDate (today : Int) : Option Int :=
  setHours (newDate (getFullYear today) (getMonth today) 1) 0 0 0 0

/-- Message of a conversation. -/
structure Message where
  body : Str
  subject : Str
  deriving DecidableEq

/-- Conversation of the mailbox. -/
structure Thread where
  id : Nat
  messages : List Message
  deriving DecidableEq

/-- Folder of the file storage; the root folder has id `0` and no record. -/
structure FolderRec where
  id : Nat
  name : Str
  parent : Nat
  deriving DecidableEq

/-- Sheet of a spreadsheet: its rows with content, top to bottom. -/
structure Sheet where
  name : Str
  rows : List (List Cell)
  deriving DecidableEq

/-- Spreadsheet file of the file storage, with the folders that hold it. -/
structure FileRec where
  id : Nat
  name : Str
  parents : List Nat
  sheets : List Sheet
  deriving DecidableEq

/-- State of the host services. -/
structure World where
  labels : List Str
  found : List Thread
  marks : List (Nat × Str)
  folders : List FolderRec
  files : List FileRec
  nextId : Nat
  deriving DecidableEq

/-- External effect of a service call. -/
inductive Event where
  | createLabel (name : Str)
  | createFolder (parent : Nat) (name : Str) (id : Nat)
  | createSpreadsheet (name : Str) (id : Nat)
  | removeFile (folder file : Nat)
  | addFile (folder file : Nat)
  | insertSheet (file : Nat) (name : Str)
  | appendRow (file : Nat) (row : List Cell)
  | addLabel (thread : Nat) (label : Str)
  deriving DecidableEq

/-- Run state: the services, the number of service calls made, the effects so far. -/
structure St where
  world : World
  calls : Nat
  trace : List Event
  deriving DecidableEq

/-- Completion of a computation: a value, or a thrown fault. -/
inductive Res (α : Type) where
  | ok (a : α)
  | thrown
  deriving DecidableEq

/-- Computation of the script: it reads the fault oracle and threads the run state. -/
def Prog (α : Type) : Type := (Nat → Bool) → St → Res α × St

/-- Return a value. -/
def Prog.pure {α : Type} (a : α) : Prog α := fun _ s => (Res.ok a, s)

/-- Sequence two computations; a fault skips the second. -/
def Prog.bind {α β : Type} (p : Prog α) (f : α → Prog β) : Prog β := fun orc s =>
  match p orc s with
  | (Res.ok a, s1) => f a orc s1
  | (Res.thrown, s1) => (Res.thrown, s1)

instance : Monad Prog where
  pure := Prog.pure
  bind := Prog.bind

/-- Statement `throw`. -/
def throwFault {α : Type} : Prog α := fun _ s => (Res.thrown, s)

/-- Statement `try { p } catch (e) { handler }`. -/
def tryCatch {α : Type} (p : Prog α) (handler : Prog α) : Prog α := fun orc s =>
  match p orc s with
  | (Res.ok a, s1) => (Res.ok a, s1)
  | (Res.thrown, s1) => handler orc s1

/-- One service call: it throws when the oracle says so, otherwise it acts on the
services and records its effects. -/
def service {α : Type} (act : World → α × World × List Event) : Prog α := fun orc s =>
  if orc s.calls then (Res.thrown, { s with calls := s.calls + 1 })
  else
    let r := act s.world
    (Res.ok r.1, { world := r.2.1, calls := s.calls + 1, trace := s.trace ++ r.2.2 })

/-- Service call that only reads. -/
def query {α : Type} (read : World → α) : Prog α := service fun w => (read w, w, [])

/-! ### Mailbox -/

/-- Call `GmailApp.getUserLabelByName(name)`: the label, or `null`. -/
def getUserLabelByName (name : Str) : Prog (Option Str) :=
  query fun w => if name ∈ w.labels then some name else none

/-- Call `GmailApp.createLabel(name)`. -/
def createLabel (name : Str) : Prog Str :=
  service fun w => (name, { w with labels := w.labels ++ [name] }, [Event.createLabel name])

/-- Call `label.getName()`. -/
def labelGetName (label : Str) : Prog Str := query fun _ => label

/-- Call `GmailApp.search(searchQuery)`. -/
def gmailSearch : Prog (List Thread) := query fun w => w.found

/-- Call `thread.getMessages()`. -/
def getMessages (thread : Thread) : Prog (List Message) := query fun _ => thread.messages

/-- Call `message.getBody()`. -/
def getBody (message : Message) : Prog Str := query fun _ => message.body

/-- Call `message.getSubject()`. -/
def getSubject (message : Message) : Prog Str := query fun _ => message.subject

/-- Call `thread.addLabel(label)`. -/
def addLabel (thread : Thread) (label : Str) : Prog Unit :=
  service fun w =>
    ((), { w with marks := w.marks ++ [(thread.id, label)] }, [Event.addLabel thread.id label])

/-! ### File storage -/

/-- Id of the root folder. -/
def rootId : Nat := 0

/-- Call `DriveApp.getRootFolder()`. -/
def getRootFolder : Prog Nat := query fun _ => rootId

/-- Call `folder.getFoldersByName(name)`: the child folders of that exact name. -/
def getFoldersByName (folder : Nat) (name : Str) : Prog (List FolderRec) :=
  query fun w => w.folders.filter fun f => f.parent = folder ∧ f.name = name

/-- Call `folder.createFolder(name)`. -/
def createFolder (folder : Nat) (name : Str) : Prog Nat :=
  service fun w =>
    (w.nextId,
     { w with folders := w.folders ++ [{ id := w.nextId, name := name, parent := folder }],
              nextId := w.nextId + 1 },
     [Event.createFolder folder name w.nextId])

/-- Call `folder.getName()`. -/
def folderGetName (_ : Nat) : Prog Unit := query fun _ => ()

/-- Call `folder.getId()`. -/
def folderGetId (folder : Nat) : Prog Nat := query fun _ => folder

/-- Call `folder.getFilesByName(name)`: the files of that name held by the folder. -/
def getFilesByName (folder : Nat) (name : Str) : Prog (List FileRec) :=
  query fun w => w.files.filter fun f => f.name = name ∧ folder ∈ f.parents

/-- Call `SpreadsheetApp.open(file)`. -/
def openSpreadsheet (file : FileRec) : Prog Nat := query fun _ => file.id

/-- Call `SpreadsheetApp.create(name)`: a new spreadsheet with one empty sheet, held
by the root folder. -/
def createSpreadsheet (name : Str) : Prog Nat :=
  service fun w =>
    (w.nextId,
     { w with files := w.files ++ [{ id := w.nextId, name := name, parents := [rootId],
                                     sheets := [{ name := "Sheet1".data, rows := [] }] }],
              nextId := w.nextId + 1 },
     [Event.createSpreadsheet name w.nextId])

/-- Call `DriveApp.getFileById(id)`. -/
def getFileById (id : Nat) : Prog Nat := query fun _ => id

/-- Apply `f` to the file of the given id. -/
def updateFile (id : Nat) (f : FileRec → FileRec) (w : World) : World :=
  { w with files := w.files.map fun r => if r.id = id then f r else r }

/-- Call `folder.removeFile(file)`. -/
def removeFile (folder file : Nat) : Prog Unit :=
  service fun w =>
    ((), updateFile file (fun r => { r with parents := r.parents.filter fun p => p != folder }) w,
     [Event.removeFile folder file])

/-- Call `folder.addFile(file)`. -/
def addFile (folder file : Nat) : Prog Unit :=
  service fun w =>
    ((), updateFile file (fun r => { r with parents := r.parents ++ [folder] }) w,
     [Event.addFile folder file])

/-! ### Spreadsheet -/

/-- Sheets of the spreadsheet of the given id. -/
def sheetsOf (w : World) (file : Nat) : List Sheet :=
  match w.files.find? fun r => r.id = file with
  | some r => r.sheets
  | none => []

/-- Call `spreadsheet.getSheets()`. -/
def getSheets (file : Nat) : Prog (List Sheet) := query fun w => sheetsOf w file

/-- State of the services after a sheet is inserted in a spreadsheet. -/
def insertSheetTo (file : Nat) (name : Str) (w : World) : World :=
  updateFile file (fun r => { r with sheets := r.sheets ++ [{ name := name, rows := [] }] }) w

/-- Call `spreadsheet.insertSheet(name)`. -/
def insertSheet (file : Nat) (name : Str) : Prog Unit :=
  service fun w => ((), insertSheetTo file name w, [Event.insertSheet file name])

/-- Rows of the first sheet of the spreadsheet. -/
def firstSheetRows (w : World) (file : Nat) : List (List Cell) :=
  match sheetsOf w file with
  | sh :: _ => sh.rows
  | [] => []

/-- Call `sheet.getLastRow()` on the first sheet. -/
def getLastRow (file : Nat) : Prog Nat := query fun w => (firstSheetRows w file).length

/-- Append a row to the first sheet of a list of sheets. -/
def appendToFirst (row : List Cell) : List Sheet → List Sheet
  | [] => []
  | sh :: rest => { sh with rows := sh.rows ++ [row] } :: rest

/-- State of the services after a row is appended to the first sheet of a spreadsheet. -/
def appendRowTo (file : Nat) (w : World) (row : List Cell) : World :=
  updateFile file (fun r => { r with sheets := appendToFirst row r.sheets }) w

/-- Call `sheet.appendRow(row)` on the first sheet. -/
def appendRow (file : Nat) (row : List Cell) : Prog Unit :=
  service fun w => ((), appendRowTo file w row, [Event.appendRow file row])

/-- Call `sheet.getName()`. -/
def sheetGetName (_ : Nat) : Prog Unit := query fun _ => ()

/-- Call `spreadsheet.getId()`. -/
def spreadsheetGetId (file : Nat) : Prog Nat := query fun _ => file

/-! ## The script -/

/-- Line 17. -/
def senderEmail : Str := "notificacion@notificacionesbaccr.com".data

/-- Line 18. -/
def spreadsheetName : Str := "Finanzas".data

/-- Line 19. -/
def processedLabelName : Str := "Finanzas_Procesado".data

/-- Line 21. -/
def targetFolderPath : Str := "Proyectos Personales/Finanzas Personales".data

/-- Method `split(sep)` with a one-character separator. -/
def splitOn (sep : Char) : Str → List Str
  | [] => [[]]
  | c :: cs =>
    if c = sep then [] :: splitOn sep cs
    else
      match splitOn sep cs with
      | [] => [[c]]
      | part :: parts => (c :: part) :: parts

/-- Lines 45-55: look the label up, create it when absent, read its name for the
search query. All of it runs before the `try` of line 59. -/
def ensureLabel (name : Str) : Prog Str := do
  let existing ← getUserLabelByName name
  let processedLabel ← match existing with
    | some l => pure l
    | none => createLabel name
  let _ ← labelGetName processedLabel
  pure processedLabel

/-- Lines 80-86: one step of the folder walk. -/
def enterFolder (currentFolder : Nat) (part : Str) : Prog Nat := do
  let subFolders ← getFoldersByName currentFolder part
  match subFolders with
  | f :: _ => pure f.id
  | [] => createFolder currentFolder part

/-- Lines 79-87: `folderPathParts.forEach`. -/
def walkFolders : List Str → Nat → Prog Nat
  | [], currentFolder => pure currentFolder
  | part :: rest, currentFolder => do
    let next ← enterFolder currentFolder part
    walkFolders rest next

/-- Lines 92-112: open the spreadsheet of the target folder, or create it in the root
folder and move it. -/
def findOrCreateSpreadsheet (targetFolder : Nat) (name : Str) : Prog Nat := do
  let filesInTargetFolder ← getFilesByName targetFolder name
  match filesInTargetFolder with
  | file :: _ => openSpreadsheet file
  | [] => do
    let spreadsheet ← createSpreadsheet name
    let id ← spreadsheetGetId spreadsheet
    let file ← getFileById id
    let root ← getRootFolder
    removeFile root file
    addFile targetFolder file
    pure spreadsheet

/-- Lines 75-112, the body of the inner `try`: the target folder and the spreadsheet. -/
def resolveDestination (folderPathParts : List Str) (name : Str) : Prog (Nat × Nat) := do
  let root ← getRootFolder
  let targetFolder ← walkFolders folderPathParts root
  folderGetName targetFolder
  let _ ← folderGetId targetFolder
  let spreadsheet ← findOrCreateSpreadsheet targetFolder name
  pure (targetFolder, spreadsheet)

/-- Lines 135-183: the body of `threads.forEach`; it yields the row pushed on
`rowsToWrite`. An empty message list makes `latestMessage` undefined, and reading
its body throws. -/
def processThread (processedLabel : Str) (thread : Thread) : Prog (List Cell) := do
  let messages ← getMessages thread
  match messages.getLast? with
  | none => throwFault
  | some latestMessage => do
    let htmlBody ← getBody latestMessage
    let row := rowData htmlBody
    addLabel thread processedLabel
    let _ ← getSubject latestMessage
    let _ ← getSubject latestMessage
    pure row

/-- Lines 132-184: `threads.forEach`, collecting `rowsToWrite`. -/
def processThreads (processedLabel : Str) : List Thread → Prog (List (List Cell))
  | [] => pure []
  | thread :: rest => do
    let row ← processThread processedLabel thread
    let rows ← processThreads processedLabel rest
    pure (row :: rows)

/-- Lines 187-189: `rowsToWrite.forEach`. -/
def writeRows (spreadsheet : Nat) : List (List Cell) → Prog Unit
  | [] => pure ()
  | row :: rest => do
    appendRow spreadsheet row
    writeRows spreadsheet rest

/-- Lines 120-130: the first sheet (inserted when there is none) and its header row. -/
def prepareSheet (spreadsheet : Nat) : Prog Unit := do
  let sheets ← getSheets spreadsheet
  if sheets = [] then insertSheet spreadsheet "Transacciones".data
  let lastRow ← getLastRow spreadsheet
  if lastRow = 0 then appendRow spreadsheet headers

/-- Lines 120-195: sheet and header, the conversations, then the rows. -/
def processSheet (processedLabel : Str) (threads : List Thread) (spreadsheet : Nat) :
    Prog Unit := do
  prepareSheet spreadsheet
  let rowsToWrite ← processThreads processedLabel threads
  if rowsToWrite.length > 0 then do
    writeRows spreadsheet rowsToWrite
    sheetGetName spreadsheet

/-- Lines 60-195, the body of the outer `try`. -/
def processFound (processedLabel : Str) : Prog Unit := do
  let threads ← gmailSearch
  if threads.length = 0 then pure ()
  else do
    let destination ← tryCatch
      (do
        let d ← resolveDestination (splitOn '/' targetFolderPath) spreadsheetName
        pure (some d))
      (pure none)
    match destination with
    | none => pure ()
    | some d => processSheet processedLabel threads d.2

/-- Function `processMonthlyTransactions` (lines 14-200). -/
def processMonthlyTransactions : Prog Unit := do
  let processedLabel ← ensureLabel processedLabelName
  tryCatch (processFound processedLabel) (pure ())

/-- Oracle under which no service call fails. -/
def noFaults : Nat → Bool := fun _ => false

/-- Run state at the start of a run. -/
def start (w : World) : St := { world := w, calls := 0, trace := [] }

/-! ## Vocabulary of the properties -/

/-! ### Locale numerals -/

/-- A well-formed "Comercio" row: label cell, then a data cell whose paragraph holds
`Tienda XYZ`. -/
def tiendaBody : Str := "<tr><td><p>Comercio:</p></td><td><p>Tienda XYZ</p></td></tr>".data

/-- A "Comercio" cell whose paragraph text is `<<p>p>`. -/
def nestedTagBody : Str := "Comercio<td><p><<p>p></p></td>".data

/-- A "Comercio" cell whose paragraph text holds a carriage return not followed by a
line feed. -/
def loneReturnBody : Str := "Comercio<td><p>a\rb</p></td>".data

/-- A message body with all five rows. -/
def fullBody : Str :=
  ("<tr><td><p>Comercio:</p></td><td><p>Tienda XYZ</p></td></tr>" ++
   "<tr><td><p>Ciudad y pa&iacute;s:</p></td><td><p>San Jose, CR</p></td></tr>" ++
   "<tr><td><p>Fecha:</p></td><td><p>Ene 5, 2025, 10:30</p></td></tr>" ++
   "<tr><td><p>Tipo de Transacci&oacute;n:</p></td><td><p>COMPRA</p></td></tr>" ++
   "<tr><td><p>Monto:</p></td><td><p>CRC 1.234,56</p></td></tr>").data

/-- A message body with merchant, city, type and amount rows but no "Fecha:" row. -/
def noFechaBody : Str :=
  ("<tr><td><p>Comercio:</p></td><td><p>Tienda XYZ</p></td></tr>" ++
   "<tr><td><p>Ciudad y país:</p></td><td><p>San Jose, CR</p></td></tr>" ++
   "<tr><td><p>Tipo de Transacción:</p></td><td><p>COMPRA</p></td></tr>" ++
   "<tr><td><p>Monto:</p></td><td><p>CRC 1.234,56</p></td></tr>").data

/-! ### Folder trees -/

/-- Ids are allocated below `nextId`: the root, every folder and its parent, every file
and the folders that hold it. -/
def WellFormed (w : World) : Prop :=
  rootId < w.nextId ∧
  (∀ f ∈ w.folders, f.id < w.nextId ∧ f.parent < w.nextId) ∧
  (∀ r ∈ w.files, r.id < w.nextId ∧ ∀ p ∈ r.parents, p < w.nextId)

instance (w : World) : Decidable (WellFormed w) := by
  unfold WellFormed
  infer_instance

/-- Folder `target` is reached from folder `cur` by child folders named by the
segments, in order. -/
def Reaches (folders : List FolderRec) : Nat → List Str → Nat → Prop
  | cur, [], target => target = cur
  | cur, part :: rest, target =>
    ∃ f ∈ folders, f.parent = cur ∧ f.name = part ∧ Reaches folders f.id rest target

/-! ### Effects -/

/-- Effect of creating a folder. -/
def createdEvent (c : FolderRec) : Event := Event.createFolder c.parent c.name c.id

/-- Effects of creating a spreadsheet in the root folder and moving it to `target`. -/
def fileEvents (target : Nat) (r : FileRec) : List Event :=
  [Event.createSpreadsheet r.name r.id, Event.removeFile rootId r.id, Event.addFile target r.id]

/-- Row extracted from the latest message of a conversation. -/
def latestRow (t : Thread) : List Cell :=
  match t.messages.getLast? with
  | some m => rowData m.body
  | none => []

/-- Effect of marking a conversation. -/
def markEvent (label : Str) (t : Thread) : Event := Event.addLabel t.id label

/-- The effect marks a conversation. -/
def isMark : Event → Bool
  | Event.addLabel _ _ => true
  | _ => false

/-- The effect appends a row. -/
def isRow : Event → Bool
  | Event.appendRow _ _ => true
  | _ => false

/-- Effects that precede the marking of the conversations: labels, folders, files,
sheets, and the header row. -/
def SetupEvent : Event → Prop
  | Event.appendRow _ row => row = headers
  | Event.addLabel _ _ => False
  | _ => True

/-- Under every fault oracle the computation only adds effects satisfying `P` to the
trace, and leaves the search result of the mailbox as it was. -/
def Emits {α : Type} (P : Event → Prop) (p : Prog α) : Prop :=
  ∀ (orc : Nat → Bool) (s : St), ∃ evs, (p orc s).2.trace = s.trace ++ evs ∧
    (∀ e ∈ evs, P e) ∧ (p orc s).2.world.found = s.world.found

/-- Shape of the effects added to `before`: setup effects, then the marks of the first
`k` conversations, then appended rows, with rows only after every conversation is
marked. -/
def MarksThenRows (label : Str) (threads : List Thread) (before after : List Event) : Prop :=
  ∃ (setup : List Event) (k : Nat) (writes : List Event),
    after = before ++ setup ++ (threads.take k).map (markEvent label) ++ writes ∧
    (∀ e ∈ setup, SetupEvent e) ∧ (∀ e ∈ writes, isRow e = true) ∧
    (writes ≠ [] → threads.length ≤ k)

/-! ### Service states -/

/-- World with no label, no folder, no file, and one conversation. -/
def oneThreadWorld : World :=
  { labels := [], found := [{ id := 7, messages := [{ body := noFechaBody, subject := [] }] }],
    marks := [], folders := [], files := [], nextId := 1 }

/-- World with the first folder of the target path, no file, and one conversation. -/
def oneFolderWorld : World :=
  { labels := [], found := [{ id := 7, messages := [{ body := noFechaBody, subject := [] }] }],
    marks := [], folders := [{ id := 1, name := "Proyectos Personales".data, parent := 0 }],
    files := [], nextId := 2 }

/-- World of the end-to-end scenario: two unmarked conversations, the first with a
well-formed body, the second without the "Fecha:" row; no label, folder or file yet. -/
def twoThreadWorld : World :=
  { labels := [],
    found := [{ id := 7, messages := [{ body := fullBody, subject := "a".data }] },
              { id := 9, messages := [{ body := "".data, subject := "b".data },
                                      { body := noFechaBody, subject := "c".data }] }],
    marks := [], folders := [], files := [], nextId := 1 }

/-! # Theorems -/

/-! ## Cleaning -/

theorem trim_sublist (s : Str) : (trim s).Sublist s := by
  unfold trim
  have h1 : ((s.dropWhile isSpace).reverse.dropWhile isSpace).Sublist
      (s.dropWhile isSpace).reverse := (List.dropWhile_suffix _).sublist
  have h2 := List.reverse_sublist.mpr h1
  rw [List.reverse_reverse] at h2
  exact h2.trans (List.dropWhile_suffix _).sublist

theorem dropWhile_head_not (p : Char → Bool) (l : Str) (c : Char)
    (h : (l.dropWhile p).head? = some c) : p c = false := by
  have := List.head?_dropWhile_not p l
  rw [h] at this
  exact this

theorem trim_getLast (s : Str) (c : Char) (h : (trim s).getLast? = some c) :
    isSpace c = false := by
  unfold trim at h
  rw [List.getLast?_reverse] at h
  exact dropWhile_head_not _ _ _ h

theorem trim_head (s : Str) (c : Char) (h : (trim s).head? = some c) : isSpace c = false := by
  unfold trim at h
  rw [List.head?_reverse] at h
  obtain ⟨t, ht⟩ := List.dropWhile_suffix (l := (s.dropWhile isSpace).reverse) isSpace
  have hne : (s.dropWhile isSpace).reverse.dropWhile isSpace ≠ [] := by
    intro e
    rw [e] at h
    simp at h
  have e2 : ((s.dropWhile isSpace).reverse).getLast? = some c := by
    rw [← ht, List.getLast?_append_of_ne_nil _ hne]
    exact h
  rw [List.getLast?_reverse] at e2
  exact dropWhile_head_not _ _ _ e2

theorem mem_removeLineBreaks {c : Char} {s : Str} (h : c ∈ removeLineBreaks s) : c ∈ s := by
  induction s using removeLineBreaks.induct with
  | case1 => simp [removeLineBreaks] at h
  | case2 rest ih =>
    rw [removeLineBreaks] at h
    exact List.mem_cons_of_mem _ (List.mem_cons_of_mem _ (ih h))
  | case3 rest ih =>
    rw [removeLineBreaks] at h
    exact List.mem_cons_of_mem _ (ih h)
  | case4 c rest h1 h2 ih =>
    rw [removeLineBreaks] at h
    · rcases List.mem_cons.mp h with h | h
      · exact h ▸ List.mem_cons_self _ _
      · exact List.mem_cons_of_mem _ (ih h)
    · exact h1
    · exact h2

theorem lineFeed_not_mem_removeLineBreaks (s : Str) : '\n' ∉ removeLineBreaks s := by
  induction s using removeLineBreaks.induct with
  | case1 => simp [removeLineBreaks]
  | case2 rest ih => rw [removeLineBreaks]; exact ih
  | case3 rest ih => rw [removeLineBreaks]; exact ih
  | case4 c rest h1 h2 ih =>
    rw [removeLineBreaks]
    · intro h
      rcases List.mem_cons.mp h with h | h
      · exact h2 h.symm
      · exact ih h
    · exact h1
    · exact h2

theorem lt_not_mem_removeParagraphTags (s : Str) (h : everyLtOpensTag s = true) :
    '<' ∉ removeParagraphTags s := by
  induction s using removeParagraphTags.induct with
  | case1 => simp [removeParagraphTags]
  | case2 rest ih =>
    rw [removeParagraphTags]
    apply ih
    simp [everyLtOpensTag] at h
    exact h.2
  | case3 rest ih =>
    rw [removeParagraphTags]
    apply ih
    simp [everyLtOpensTag] at h
    exact h.2
  | case4 c rest h1 h2 ih =>
    rw [removeParagraphTags]
    · have ho : opensTag (c :: rest) = false := by
        unfold opensTag
        split
        · next t heq =>
          injection heq with e1 e2
          exact (h1 _ e1 e2).elim
        · next t heq =>
          injection heq with e1 e2
          exact (h2 _ e1 e2).elim
        · rfl
      rw [everyLtOpensTag, ho] at h
      simp at h
      intro hm
      rcases List.mem_cons.mp hm with hm | hm
      · exact h.1 hm.symm
      · exact ih h.2 hm
    · exact h1
    · exact h2

theorem lineFeed_not_mem_clean (s : Str) : '\n' ∉ clean s := fun h =>
  lineFeed_not_mem_removeLineBreaks _ ((trim_sublist _).subset h)

theorem lt_not_mem_clean (s : Str) (h : everyLtOpensTag s = true) : '<' ∉ clean s := fun hm =>
  lt_not_mem_removeParagraphTags s h (mem_removeLineBreaks ((trim_sublist _).subset hm))

theorem no_tag_of_lt_not_mem (r : Str) (h : '<' ∉ r) :
    ¬ "<p>".data <:+: r ∧ ¬ "</p>".data <:+: r := by
  constructor
  · intro hi
    exact h (hi.subset (by decide))
  · intro hi
    exact h (hi.subset (by decide))

/-! ## Text fields -/

/-- C3 (as stated, refuted): the "Comercio" pattern matches `nestedTagBody`, and the
text returned for it is the tag `<p>`: one deletion pass over `<<p>p>` leaves a tag. -/
theorem extractAndClean_residual_tag :
    jsMatch comercioRegex nestedTagBody = some ["<<p>p>".data] ∧
    extractAndClean nestedTagBody comercioRegex = "<p>".data ∧
    "<p>".data <:+: extractAndClean nestedTagBody comercioRegex := by
  refine ⟨by decide, by decide, ?_⟩
  have h : extractAndClean nestedTagBody comercioRegex = "<p>".data := by decide
  exact h ▸ List.infix_refl _

/-- A carriage return that is not followed by a line feed is kept: only `\r?\n` is
deleted. -/
theorem extractAndClean_keeps_lone_return :
    extractAndClean loneReturnBody comercioRegex = "a\rb".data := by
  decide

/-- C3 (amended): whenever the pattern matches, `extractAndClean` returns a text with
no line feed and no leading or trailing white space, which for a non-empty group 1 is
the captured text after one deletion pass for tags, one for line breaks, and `trim`;
it holds no `<p>` or `</p>` tag when every `<` of the captured text begins such a tag;
for the well-formed "Comercio" cell holding `Tienda XYZ` it is exactly `Tienda XYZ`. -/
theorem extractAndClean_match (body : Str) (regex : List Atom) (w : Str) (caps : List Str)
    (hm : jsMatch regex body = some (w :: caps)) :
    '\n' ∉ extractAndClean body regex ∧
    (∀ c, (extractAndClean body regex).head? = some c → isSpace c = false) ∧
    (∀ c, (extractAndClean body regex).getLast? = some c → isSpace c = false) ∧
    (w ≠ [] → extractAndClean body regex = trim (removeLineBreaks (removeParagraphTags w))) ∧
    (everyLtOpensTag w = true →
      ¬ "<p>".data <:+: extractAndClean body regex ∧
      ¬ "</p>".data <:+: extractAndClean body regex) ∧
    extractAndClean tiendaBody comercioRegex = "Tienda XYZ".data := by
  have hr : extractAndClean body regex = if w = [] then notAvailable else clean w := by
    simp [extractAndClean, hm]
  by_cases hw : w = []
  · rw [hr, if_pos hw]
    refine ⟨by decide, ?_, ?_, fun h => absurd hw h, fun _ => by decide, by decide⟩
    · intro c hc
      have : c = 'N' := by
        have e : notAvailable.head? = some 'N' := by decide
        rw [e] at hc
        exact (Option.some.inj hc).symm
      subst this
      decide
    · intro c hc
      have : c = 'A' := by
        have e : notAvailable.getLast? = some 'A' := by decide
        rw [e] at hc
        exact (Option.some.inj hc).symm
      subst this
      decide
  · rw [hr, if_neg hw]
    exact ⟨lineFeed_not_mem_clean w, trim_head _, trim_getLast _, fun _ => rfl,
      fun ht => no_tag_of_lt_not_mem _ (lt_not_mem_clean w ht), by decide⟩

theorem extractAndClean_match_witness :
    '\n' ∉ extractAndClean tiendaBody comercioRegex ∧
    (∀ c, (extractAndClean tiendaBody comercioRegex).head? = some c → isSpace c = false) ∧
    (∀ c, (extractAndClean tiendaBody comercioRegex).getLast? = some c → isSpace c = false) ∧
    ("Tienda XYZ".data ≠ [] → extractAndClean tiendaBody comercioRegex =
      trim (removeLineBreaks (removeParagraphTags "Tienda XYZ".data))) ∧
    (everyLtOpensTag "Tienda XYZ".data = true →
      ¬ "<p>".data <:+: extractAndClean tiendaBody comercioRegex ∧
      ¬ "</p>".data <:+: extractAndClean tiendaBody comercioRegex) ∧
    extractAndClean tiendaBody comercioRegex = "Tienda XYZ".data :=
  extractAndClean_match tiendaBody comercioRegex "Tienda XYZ".data [] (by decide)

/-! ## Matching -/

theorem stripLit_eq_some (s t r : Str) : stripLit s t = some r ↔ t = s ++ r := by
  induction s generalizing t with
  | nil => simp [stripLit, eq_comm]
  | cons a s ih =>
    cases t with
    | nil => simp [stripLit]
    | cons c t =>
      by_cases h : a = c
      · subst h
        simp [stripLit, ih]
      · simp [stripLit, h]
        intro e
        exact absurd e.symm h

theorem stripLit_eq_none (s t : Str) (h : ¬ s <+: t) : stripLit s t = none := by
  cases e : stripLit s t with
  | none => rfl
  | some r => exact absurd ⟨r, ((stripLit_eq_some s t r).mp e).symm⟩ h

theorem matchAtoms_lit_none (s : Str) (rest : List Atom) (t : Str) (h : ¬ s <+: t) :
    matchAtoms (Atom.lit s :: rest) t = none := by
  simp [matchAtoms, stripLit_eq_none s t h]

/-- A pattern that begins with a literal has no match in a text that lacks the literal. -/
theorem jsMatch_lit_none (s : Str) (rest : List Atom) (body : Str) (h : ¬ s <:+: body) :
    jsMatch (Atom.lit s :: rest) body = none := by
  induction body with
  | nil =>
    rw [jsMatch]
    exact matchAtoms_lit_none s rest [] fun hp => h hp.isInfix
  | cons c cs ih =>
    rw [jsMatch, matchAtoms_lit_none s rest (c :: cs) fun hp => h hp.isInfix]
    exact ih fun hi => h (hi.trans (List.suffix_cons c cs).isInfix)

theorem extractAndClean_none (body : Str) (regex : List Atom) (h : jsMatch regex body = none) :
    extractAndClean body regex = notAvailable := by
  simp [extractAndClean, h]

/-! ## Rows -/

/-- C6: for every body `rowData` is a row of five cells (the model is a total function:
nothing is raised); a text field whose pattern has no match is `N/A`, whatever the
other patterns do; a body without the text `Fecha:` yields date `N/A` and leaves the
other four cells as extracted by their own patterns, as in `noFechaBody`. -/
theorem rowData_complete (body : Str) :
    (rowData body).length = 5 ∧
    (jsMatch comercioRegex body = none → (rowData body)[0]? = some (Cell.text notAvailable)) ∧
    (jsMatch ciudadPaisRegex body = none → (rowData body)[1]? = some (Cell.text notAvailable)) ∧
    (jsMatch fechaRegex body = none → (rowData body)[2]? = some (Cell.text notAvailable)) ∧
    (jsMatch tipoTransaccionRegex body = none →
      (rowData body)[3]? = some (Cell.text notAvailable)) ∧
    (¬ "Fecha:".data <:+: body →
      rowData body =
        [Cell.text (extractAndClean body comercioRegex),
         Cell.text (extractAndClean body ciudadPaisRegex),
         Cell.text notAvailable,
         Cell.text (extractAndClean body tipoTransaccionRegex),
         Cell.number (parsedMonto body)]) ∧
    rowData noFechaBody =
      [Cell.text "Tienda XYZ".data, Cell.text "San Jose, CR".data, Cell.text "N/A".data,
       Cell.text "COMPRA".data, Cell.number (Num.dec 123456 (-2))] := by
  refine ⟨rfl, ?_, ?_, ?_, ?_, ?_, by decide⟩
  · intro h
    simp [rowData, extractAndClean_none _ _ h]
  · intro h
    simp [rowData, extractAndClean_none _ _ h]
  · intro h
    simp [rowData, extractAndClean_none _ _ h]
  · intro h
    simp [rowData, extractAndClean_none _ _ h]
  · intro h
    have hf : jsMatch fechaRegex body = none := jsMatch_lit_none _ _ _ h
    simp [rowData, extractAndClean_none _ _ hf]

/-- C7: the amount is 0 whenever the "Monto" pattern has no match in the body, or the
cleaned content of the located cell has no match for `CRC\s*([\d.,]+)`, or the
normalized token does not parse as a number. -/
theorem parsedMonto_zero (body : Str)
    (h : jsMatch montoFullTdRegex body = none ∨
      jsMatch numberExtractRegex (clean (montoRawContent body)) = none ∨
      parseFloat (normalizeMonto (montoToken (clean (montoRawContent body)))) = Num.nan) :
    parsedMonto body = Num.dec 0 0 ∧ (parsedMonto body).value = some 0 := by
  have key : parsedMonto body = Num.dec 0 0 := by
    rcases h with h | h | h
    · have e : montoRawContent body = [] := by simp [montoRawContent, h]
      unfold parsedMonto
      rw [e]
      decide
    · have e : montoToken (clean (montoRawContent body)) = "0.00".data := by
        simp [montoToken, h]
      unfold parsedMonto amountOfCell
      rw [e]
      decide
    · unfold parsedMonto amountOfCell
      rw [h]
      rfl
  exact ⟨key, by rw [key]; simp [Num.value]⟩

theorem parsedMonto_zero_witness :
    parsedMonto "<td>Monto</td><td>1.234,56</td>".data = Num.dec 0 0 ∧
    (parsedMonto "<td>Monto</td><td>1.234,56</td>".data).value = some 0 :=
  parsedMonto_zero "<td>Monto</td><td>1.234,56</td>".data (Or.inl (by decide))

/-! ## Date range -/

/-- The run of 15 January 2025: the range is 1 December 2024 to 1 January 2025. -/
theorem search_range_january :
    getFullYear 1736899200000 = 2025 ∧ getMonth 1736899200000 = 0 ∧
    getDate 1736899200000 = 15 ∧
    searchStartDate 1736899200000 = some 1733011200000 ∧
    searchEndDate 1736899200000 = some 1735689600000 ∧
    getFullYear 1733011200000 = 2024 ∧ getMonth 1733011200000 = 11 ∧
    getDate 1733011200000 = 1 := by
  decide

/-- The constructor reads a year argument from 0 to 99 as 1900 + year; the year of a
clock reading is never in that range. -/
theorem newDate_twoDigitYear : newDate 50 3 1 = newDate 1950 3 1 := by
  decide

/-! ## Numerals -/

theorem bind_apply {α β : Type} (p : Prog α) (f : α → Prog β) (orc : Nat → Bool) (s : St) :
    (p >>= f) orc s =
      match p orc s with
      | (Res.ok a, s1) => f a orc s1
      | (Res.thrown, s1) => (Res.thrown, s1) := rfl

theorem pure_apply {α : Type} (a : α) (orc : Nat → Bool) (s : St) :
    (pure a : Prog α) orc s = (Res.ok a, s) := rfl

theorem service_apply {α : Type} (act : World → α × World × List Event) (orc : Nat → Bool)
    (s : St) :
    service act orc s =
      if orc s.calls then (Res.thrown, { s with calls := s.calls + 1 })
      else (Res.ok (act s.world).1,
        { world := (act s.world).2.1, calls := s.calls + 1,
          trace := s.trace ++ (act s.world).2.2 }) := rfl

theorem query_apply {α : Type} (read : World → α) (orc : Nat → Bool) (s : St) :
    query read orc s =
      if orc s.calls then (Res.thrown, { s with calls := s.calls + 1 })
      else (Res.ok (read s.world), { s with calls := s.calls + 1 }) := by
  simp [query, service_apply]

theorem tryCatch_unit_ok (p : Prog Unit) (orc : Nat → Bool) (s : St) :
    (tryCatch p (pure ()) orc s).1 = Res.ok () := by
  unfold tryCatch
  rcases h : p orc s with ⟨r, s1⟩
  cases r with
  | ok a => rfl
  | thrown => rfl

theorem ensureLabel_thrown_iff (orc : Nat → Bool) (w : World) :
    (ensureLabel processedLabelName orc (start w)).1 = Res.thrown ↔
      (orc 0 = true ∨ orc 1 = true ∨ (processedLabelName ∉ w.labels ∧ orc 2 = true)) := by
  unfold ensureLabel getUserLabelByName createLabel labelGetName
  by_cases h0 : orc 0 = true
  · simp [bind_apply, query_apply, service_apply, start, pure_apply, h0]
  · by_cases hl : processedLabelName ∈ w.labels
    · by_cases h1 : orc 1 = true
      · simp [bind_apply, query_apply, service_apply, start, pure_apply, h0, hl, h1]
      · simp [bind_apply, query_apply, service_apply, start, pure_apply, h0, hl, h1]
    · by_cases h1 : orc 1 = true
      · simp [bind_apply, query_apply, service_apply, start, pure_apply, h0, hl, h1]
      · by_cases h2 : orc 2 = true
        · simp [bind_apply, query_apply, service_apply, start, pure_apply, h0, hl, h1, h2]
        · simp [bind_apply, query_apply, service_apply, start, pure_apply, h0, hl, h1, h2]

/-- C5 (amended): a fault raised by any service call made inside the `try` block (the
search, the folder and spreadsheet calls, the calls on conversations and messages) is
caught and the run ends normally; a fault leaves `processMonthlyTransactions` exactly
when it is raised by the label lookup (call 0), by the call after it (the label
creation, or the name read when the label exists), or by the name read after a
creation (call 2), which all precede the `try`. -/
theorem run_thrown_iff (orc : Nat → Bool) (w : World) :
    ((processMonthlyTransactions orc (start w)).1 = Res.thrown ↔
      (orc 0 = true ∨ orc 1 = true ∨ (processedLabelName ∉ w.labels ∧ orc 2 = true))) ∧
    ((processMonthlyTransactions orc (start w)).1 = Res.ok () ↔
      ¬ (orc 0 = true ∨ orc 1 = true ∨ (processedLabelName ∉ w.labels ∧ orc 2 = true))) := by
  have key : (processMonthlyTransactions orc (start w)).1 = Res.thrown ↔
      (ensureLabel processedLabelName orc (start w)).1 = Res.thrown := by
    unfold processMonthlyTransactions
    rw [bind_apply]
    rcases h : ensureLabel processedLabelName orc (start w) with ⟨r, s1⟩
    cases r with
    | ok l =>
      simp only [tryCatch_unit_ok]
      simp
    | thrown => simp
  have h1 := key.trans (ensureLabel_thrown_iff orc w)
  refine ⟨h1, ?_⟩
  rw [← h1]
  cases (processMonthlyTransactions orc (start w)).1 with
  | ok a => simp
  | thrown => simp

/-- C5 (as stated, refuted): when the label lookup fails, the fault leaves
`processMonthlyTransactions`. -/
theorem run_label_fault_propagates :
    (processMonthlyTransactions (fun n => n == 0) (start oneThreadWorld)).1 = Res.thrown := by
  decide

/-! ## Destination resolver -/

theorem service_noFaults {α : Type} (act : World → α × World × List Event) (s : St) :
    service act noFaults s =
      (Res.ok (act s.world).1,
        { world := (act s.world).2.1, calls := s.calls + 1,
          trace := s.trace ++ (act s.world).2.2 }) := rfl

theorem query_noFaults {α : Type} (read : World → α) (s : St) :
    query read noFaults s = (Res.ok (read s.world), { s with calls := s.calls + 1 }) := by
  simp [query, service_noFaults]

theorem enterFolder_found (cur : Nat) (part : Str) (s : St) (f : FolderRec)
    (fs : List FolderRec)
    (h : s.world.folders.filter (fun f => f.parent = cur ∧ f.name = part) = f :: fs) :
    enterFolder cur part noFaults s = (Res.ok f.id, { s with calls := s.calls + 1 }) := by
  simp only [enterFolder, getFoldersByName, bind_apply, query_noFaults, h]
  rfl

theorem enterFolder_create (cur : Nat) (part : Str) (s : St)
    (h : s.world.folders.filter (fun f => f.parent = cur ∧ f.name = part) = []) :
    enterFolder cur part noFaults s =
      (Res.ok s.world.nextId,
        { world := { s.world with
            folders := s.world.folders ++ [{ id := s.world.nextId, name := part, parent := cur }],
            nextId := s.world.nextId + 1 },
          calls := s.calls + 2,
          trace := s.trace ++ [Event.createFolder cur part s.world.nextId] }) := by
  simp only [enterFolder, getFoldersByName, bind_apply, query_noFaults, h]
  rfl

theorem walkFolders_spec (parts : List Str) :
    ∀ (cur : Nat) (s : St),
      (∀ f ∈ s.world.folders, f.id < s.world.nextId ∧ f.parent < s.world.nextId) →
      cur < s.world.nextId →
      ∃ (target : Nat) (created : List FolderRec) (n : Nat),
        walkFolders parts cur noFaults s =
          (Res.ok target,
            { world := { s.world with folders := s.world.folders ++ created,
                                      nextId := s.world.nextId + created.length },
              calls := s.calls + n,
              trace := s.trace ++ created.map createdEvent }) ∧
        target < s.world.nextId + created.length ∧
        created.length ≤ parts.length ∧
        (∀ c ∈ created, c.id < s.world.nextId + created.length ∧
            c.parent < s.world.nextId + created.length) ∧
        Reaches (s.world.folders ++ created) cur parts target ∧
        (∀ c ∈ created, ∀ g ∈ s.world.folders ++ created,
            g.parent = c.parent → g.name = c.name → g = c) ∧
        ((∀ f ∈ s.world.folders, f.parent ≠ cur) → ∀ c ∈ created, cur ≤ c.parent) ∧
        (∀ s2 : St, s2.world.folders = s.world.folders ++ created →
          walkFolders parts cur noFaults s2 =
            (Res.ok target, { s2 with calls := s2.calls + parts.length })) := by
  induction parts with
  | nil =>
    intro cur s hwf hcur
    refine ⟨cur, [], 0, ?_, by simpa using hcur, by simp, by simp, rfl, by simp, by simp, ?_⟩
    · simp [walkFolders, pure_apply]
    · intro s2 _
      simp [walkFolders, pure_apply]
  | cons part rest ih =>
    intro cur s hwf hcur
    cases hfil : s.world.folders.filter (fun f => f.parent = cur ∧ f.name = part) with
    | cons f fs =>
      have hfm : f ∈ s.world.folders.filter (fun f => f.parent = cur ∧ f.name = part) := by
        rw [hfil]
        exact List.mem_cons_self _ _
      have hf : f ∈ s.world.folders ∧ f.parent = cur ∧ f.name = part := by
        simpa [List.mem_filter] using hfm
      obtain ⟨target, created, n, hrun, ht, hlen, hids, hreach, huniq, _, hidem⟩ :=
        ih f.id { s with calls := s.calls + 1 } hwf (hwf f hf.1).1
      refine ⟨target, created, n + 1, ?_, ht, ?_, hids, ?_, huniq, ?_, ?_⟩
      · rw [walkFolders, bind_apply, enterFolder_found _ _ _ _ _ hfil]
        simp only [hrun]
        simp [Nat.add_assoc, Nat.add_comm 1 n]
      · simp only [List.length_cons]
        omega
      · exact ⟨f, List.mem_append_left _ hf.1, hf.2.1, hf.2.2, hreach⟩
      · intro hch
        exact absurd hf.2.1 (hch f hf.1)
      · intro s2 h2
        have hfil2 : s2.world.folders.filter (fun f => f.parent = cur ∧ f.name = part) =
            f :: (fs ++ created.filter (fun f => f.parent = cur ∧ f.name = part)) := by
          rw [h2, List.filter_append, hfil]
          rfl
        rw [walkFolders, bind_apply, enterFolder_found _ _ _ _ _ hfil2]
        simp only [hidem { s2 with calls := s2.calls + 1 } h2]
        simp [Nat.add_assoc, Nat.add_comm 1]
    | nil =>
      have hnone : ∀ g ∈ s.world.folders, ¬ (g.parent = cur ∧ g.name = part) := by
        intro g hg hp
        have : g ∈ s.world.folders.filter (fun f => f.parent = cur ∧ f.name = part) := by
          simpa [List.mem_filter] using ⟨hg, hp⟩
        rw [hfil] at this
        exact List.not_mem_nil _ this
      have hwf1 : ∀ g ∈ s.world.folders ++
          [({ id := s.world.nextId, name := part, parent := cur } : FolderRec)],
          g.id < s.world.nextId + 1 ∧ g.parent < s.world.nextId + 1 := by
        intro g hg
        rcases List.mem_append.mp hg with h | h
        · have := hwf g h
          omega
        · rw [List.mem_singleton] at h
          subst h
          simp
          omega
      have hchild1 : ∀ g ∈ s.world.folders ++
          [({ id := s.world.nextId, name := part, parent := cur } : FolderRec)],
          g.parent ≠ s.world.nextId := by
        intro g hg
        rcases List.mem_append.mp hg with h | h
        · have := hwf g h
          omega
        · rw [List.mem_singleton] at h
          subst h
          simp
          omega
      obtain ⟨target, created, n, hrun, ht, hlen, hids, hreach, huniq, hchild, hidem⟩ :=
        ih s.world.nextId
          { world := { s.world with
              folders := s.world.folders ++ [{ id := s.world.nextId, name := part, parent := cur }],
              nextId := s.world.nextId + 1 },
            calls := s.calls + 2,
            trace := s.trace ++ [Event.createFolder cur part s.world.nextId] }
          hwf1 (Nat.lt_succ_self _)
      dsimp only at hrun ht hids hreach huniq hchild hidem
      simp only [List.append_assoc, List.singleton_append] at hreach huniq hidem
      have hpar := hchild hchild1
      refine ⟨target, { id := s.world.nextId, name := part, parent := cur } :: created, n + 2,
        ?_, ?_, ?_, ?_, ?_, ?_, ?_, ?_⟩
      · rw [walkFolders, bind_apply, enterFolder_create _ _ _ hfil]
        simp only [hrun]
        simp [Nat.add_assoc, Nat.add_comm 1, Nat.add_comm 2 n, createdEvent]
      · simp only [List.length_cons]
        omega
      · simp only [List.length_cons]
        omega
      · intro c hc
        simp only [List.length_cons]
        rcases List.mem_cons.mp hc with h | h
        · subst h
          simp
          omega
        · have := hids c h
          simp only at this
          omega
      · exact ⟨_, List.mem_append_right _ (List.mem_cons_self _ _), rfl, rfl, hreach⟩
      · intro c hc g hg hp hn
        rcases List.mem_cons.mp hc with h | h
        · subst h
          rcases List.mem_append.mp hg with h2 | h2
          · exact absurd ⟨hp, hn⟩ (hnone g h2)
          · rcases List.mem_cons.mp h2 with h3 | h3
            · exact h3
            · have := hpar g h3
              simp only at hp
              omega
        · exact huniq c h g hg hp hn
      · intro _ c hc
        rcases List.mem_cons.mp hc with h | h
        · subst h
          exact Nat.le_refl _
        · have := hpar c h
          omega
      · intro s2 h2
        have hfil2 : s2.world.folders.filter (fun f => f.parent = cur ∧ f.name = part) =
            ({ id := s.world.nextId, name := part, parent := cur } : FolderRec) ::
              created.filter (fun f => f.parent = cur ∧ f.name = part) := by
          rw [h2, List.filter_append, hfil, List.nil_append, List.filter_cons_of_pos]
          simp
        rw [walkFolders, bind_apply, enterFolder_found _ _ _ _ _ hfil2]
        simp only [hidem { s2 with calls := s2.calls + 1 } h2]
        simp [Nat.add_assoc, Nat.add_comm 1]

theorem findOrCreate_found (target : Nat) (name : Str) (s : St) (r : FileRec)
    (rs : List FileRec)
    (h : s.world.files.filter (fun f => f.name = name ∧ target ∈ f.parents) = r :: rs) :
    findOrCreateSpreadsheet target name noFaults s =
      (Res.ok r.id, { s with calls := s.calls + 2 }) := by
  simp only [findOrCreateSpreadsheet, getFilesByName, bind_apply, query_noFaults, h,
    openSpreadsheet]

theorem map_update_fresh (files : List FileRec) (nf : FileRec) (id : Nat)
    (f : FileRec → FileRec) (h : ∀ r ∈ files, r.id ≠ id) :
    (files ++ [nf]).map (fun r => if r.id = id then f r else r) =
      files ++ [if nf.id = id then f nf else nf] := by
  rw [List.map_append]
  congr 1
  calc files.map (fun r => if r.id = id then f r else r)
      = files.map fun r => r := List.map_congr_left fun r hr => by simp [h r hr]
    _ = files := List.map_id _

theorem findOrCreate_create (target : Nat) (name : Str) (s : St)
    (hfresh : ∀ r ∈ s.world.files, r.id < s.world.nextId)
    (h : s.world.files.filter (fun f => f.name = name ∧ target ∈ f.parents) = []) :
    findOrCreateSpreadsheet target name noFaults s =
      (Res.ok s.world.nextId,
        { world := { s.world with
            files := s.world.files ++ [{ id := s.world.nextId, name := name, parents := [target],
                                         sheets := [{ name := "Sheet1".data, rows := [] }] }],
            nextId := s.world.nextId + 1 },
          calls := s.calls + 7,
          trace := s.trace ++ [Event.createSpreadsheet name s.world.nextId,
            Event.removeFile rootId s.world.nextId, Event.addFile target s.world.nextId] }) := by
  have hne : ∀ r ∈ s.world.files, r.id ≠ s.world.nextId := fun r hr =>
    Nat.ne_of_lt (hfresh r hr)
  simp only [findOrCreateSpreadsheet, getFilesByName, bind_apply, query_noFaults, h,
    createSpreadsheet, spreadsheetGetId, getFileById, getRootFolder, removeFile, addFile,
    service_noFaults, pure_apply, updateFile, map_update_fresh _ _ _ _ hne]
  simp [rootId]

theorem resolveDestination_eq (parts : List Str) (name : Str) (s sW : St) (target : Nat)
    (hwalk : walkFolders parts rootId noFaults { s with calls := s.calls + 1 } =
      (Res.ok target, sW)) :
    resolveDestination parts name noFaults s =
      match findOrCreateSpreadsheet target name noFaults { sW with calls := sW.calls + 1 + 1 } with
      | (Res.ok ss, sF) => (Res.ok (target, ss), sF)
      | (Res.thrown, sF) => (Res.thrown, sF) := by
  simp only [resolveDestination, getRootFolder, folderGetName, folderGetId, bind_apply,
    query_noFaults, hwalk, pure_apply]
  generalize findOrCreateSpreadsheet target name noFaults _ = x
  rcases x with ⟨_ | _, _⟩ <;> rfl

/-- C8: on a well-formed tree, for every path, the resolver (no service call failing)
ends in a folder reached from the root by the segment names in order; the folders it
adds are at most one per segment, each the only child of its name in its parent (an
existing child of the name is entered, not duplicated); it adds the spreadsheet file,
held by that folder, only when the folder holds no file of the name; and resolving
again on the resulting state returns the same folder and file and changes neither the
services nor the effect trace. -/
theorem resolveDestination_idempotent (parts : List Str) (name : Str) (s : St)
    (hwf : WellFormed s.world) :
    ∃ (target file : Nat) (created : List FolderRec) (newFiles : List FileRec),
      (resolveDestination parts name noFaults s).1 = Res.ok (target, file) ∧
      (resolveDestination parts name noFaults s).2.world.folders = s.world.folders ++ created ∧
      (resolveDestination parts name noFaults s).2.world.files = s.world.files ++ newFiles ∧
      (resolveDestination parts name noFaults s).2.trace =
        s.trace ++ (created.map createdEvent ++ (newFiles.map (fileEvents target)).flatten) ∧
      created.length ≤ parts.length ∧
      Reaches (s.world.folders ++ created) rootId parts target ∧
      (∀ c ∈ created, ∀ g ∈ s.world.folders ++ created,
        g.parent = c.parent → g.name = c.name → g = c) ∧
      (∃ r ∈ s.world.files ++ newFiles, r.id = file ∧ r.name = name ∧ target ∈ r.parents) ∧
      ((∃ r ∈ s.world.files, r.name = name ∧ target ∈ r.parents) → newFiles = []) ∧
      ((¬ ∃ r ∈ s.world.files, r.name = name ∧ target ∈ r.parents) →
        newFiles = [{ id := file, name := name, parents := [target],
                      sheets := [{ name := "Sheet1".data, rows := [] }] }]) ∧
      (resolveDestination parts name noFaults (resolveDestination parts name noFaults s).2).1 =
        Res.ok (target, file) ∧
      (resolveDestination parts name noFaults (resolveDestination parts name noFaults s).2).2.world =
        (resolveDestination parts name noFaults s).2.world ∧
      (resolveDestination parts name noFaults (resolveDestination parts name noFaults s).2).2.trace =
        (resolveDestination parts name noFaults s).2.trace := by
  obtain ⟨hroot, hfold, hfile⟩ := hwf
  obtain ⟨target, created, n, hrun, ht, hlen, hids, hreach, huniq, _, hidem⟩ :=
    walkFolders_spec parts rootId { s with calls := s.calls + 1 } hfold hroot
  dsimp only at hrun ht hids hreach huniq hidem
  generalize hsW : ({ world := { s.world with folders := s.world.folders ++ created,
                                              nextId := s.world.nextId + created.length },
                      calls := s.calls + 1 + n,
                      trace := s.trace ++ created.map createdEvent } : St) = sW at hrun
  have hWfolders : sW.world.folders = s.world.folders ++ created := by rw [← hsW]
  have hWfiles : sW.world.files = s.world.files := by rw [← hsW]
  have hWnext : sW.world.nextId = s.world.nextId + created.length := by rw [← hsW]
  have hWtrace : sW.trace = s.trace ++ created.map createdEvent := by rw [← hsW]
  have hres := resolveDestination_eq parts name s sW target hrun
  cases hfil : s.world.files.filter (fun f => f.name = name ∧ target ∈ f.parents) with
  | cons r rs =>
    have hrm : r ∈ s.world.files.filter (fun f => f.name = name ∧ target ∈ f.parents) := by
      rw [hfil]
      exact List.mem_cons_self _ _
    have hr : r ∈ s.world.files ∧ r.name = name ∧ target ∈ r.parents := by
      simpa [List.mem_filter] using hrm
    rw [findOrCreate_found target name { sW with calls := sW.calls + 1 + 1 } r rs
      (by rw [← hfil, ← hWfiles])] at hres
    dsimp only at hres
    have hwalk2 := hidem { (resolveDestination parts name noFaults s).2 with
      calls := (resolveDestination parts name noFaults s).2.calls + 1 } (by rw [hres, ← hWfolders])
    have hres2 := resolveDestination_eq parts name _ _ target hwalk2
    rw [findOrCreate_found target name _ r rs (by rw [hres, ← hfil, ← hWfiles])] at hres2
    dsimp only at hres2
    refine ⟨target, r.id, created, [], ?_, ?_, ?_, ?_, hlen, hreach, huniq, ?_, ?_, ?_, ?_, ?_, ?_⟩
    · rw [hres]
    · rw [hres, ← hWfolders]
    · rw [hres]
      simp [hWfiles]
    · rw [hres]
      simp [hWtrace]
    · exact ⟨r, by simpa using hr.1, rfl, hr.2.1, hr.2.2⟩
    · intro _
      rfl
    · intro hno
      exact absurd ⟨r, hr⟩ hno
    · rw [hres2]
    · rw [hres2]
    · rw [hres2]
  | nil =>
    have hnone : ¬ ∃ r ∈ s.world.files, r.name = name ∧ target ∈ r.parents := by
      rintro ⟨r, hr, hp⟩
      have : r ∈ s.world.files.filter (fun f => f.name = name ∧ target ∈ f.parents) := by
        simpa [List.mem_filter] using ⟨hr, hp⟩
      rw [hfil] at this
      exact List.not_mem_nil _ this
    rw [findOrCreate_create target name { sW with calls := sW.calls + 1 + 1 }
      (fun r hr => by
        have h1 : r ∈ s.world.files := by rw [← hWfiles]; exact hr
        have := (hfile r h1).1
        dsimp only
        omega)
      (by rw [← hfil, ← hWfiles])] at hres
    dsimp only at hres
    have hwalk2 := hidem { (resolveDestination parts name noFaults s).2 with
      calls := (resolveDestination parts name noFaults s).2.calls + 1 } (by rw [hres, ← hWfolders])
    have hres2 := resolveDestination_eq parts name _ _ target hwalk2
    rw [findOrCreate_found target name _
      { id := sW.world.nextId, name := name, parents := [target],
        sheets := [{ name := "Sheet1".data, rows := [] }] } [] (by
          rw [hres]
          dsimp only
          rw [List.filter_append, hWfiles, hfil]
          simp)] at hres2
    dsimp only at hres2
    refine ⟨target, sW.world.nextId, created,
      [{ id := sW.world.nextId, name := name, parents := [target],
         sheets := [{ name := "Sheet1".data, rows := [] }] }],
      ?_, ?_, ?_, ?_, hlen, hreach, huniq, ?_, ?_, ?_, ?_, ?_, ?_⟩
    · rw [hres]
    · rw [hres, ← hWfolders]
    · rw [hres, ← hWfiles]
    · rw [hres]
      simp [fileEvents, hWtrace]
    · exact ⟨_, List.mem_append_right _ (List.mem_singleton_self _), rfl, rfl,
        List.mem_singleton_self _⟩
    · intro h
      exact absurd h hnone
    · intro _
      rfl
    · rw [hres2]
    · rw [hres2]
    · rw [hres2]

theorem resolveDestination_idempotent_witness :
    ∃ (target file : Nat) (created : List FolderRec) (newFiles : List FileRec),
      (resolveDestination (splitOn '/' targetFolderPath) spreadsheetName noFaults
        (start oneFolderWorld)).1 = Res.ok (target, file) ∧
      (resolveDestination (splitOn '/' targetFolderPath) spreadsheetName noFaults
        (start oneFolderWorld)).2.world.folders = (start oneFolderWorld).world.folders ++ created ∧
      (resolveDestination (splitOn '/' targetFolderPath) spreadsheetName noFaults
        (start oneFolderWorld)).2.world.files = (start oneFolderWorld).world.files ++ newFiles ∧
      (resolveDestination (splitOn '/' targetFolderPath) spreadsheetName noFaults
        (start oneFolderWorld)).2.trace =
        (start oneFolderWorld).trace ++
          (created.map createdEvent ++ (newFiles.map (fileEvents target)).flatten) ∧
      created.length ≤ (splitOn '/' targetFolderPath).length ∧
      Reaches ((start oneFolderWorld).world.folders ++ created) rootId
        (splitOn '/' targetFolderPath) target ∧
      (∀ c ∈ created, ∀ g ∈ (start oneFolderWorld).world.folders ++ created,
        g.parent = c.parent → g.name = c.name → g = c) ∧
      (∃ r ∈ (start oneFolderWorld).world.files ++ newFiles,
        r.id = file ∧ r.name = spreadsheetName ∧ target ∈ r.parents) ∧
      ((∃ r ∈ (start oneFolderWorld).world.files,
        r.name = spreadsheetName ∧ target ∈ r.parents) → newFiles = []) ∧
      ((¬ ∃ r ∈ (start oneFolderWorld).world.files,
        r.name = spreadsheetName ∧ target ∈ r.parents) →
        newFiles = [{ id := file, name := spreadsheetName, parents := [target],
                      sheets := [{ name := "Sheet1".data, rows := [] }] }]) ∧
      (resolveDestination (splitOn '/' targetFolderPath) spreadsheetName noFaults
        (resolveDestination (splitOn '/' targetFolderPath) spreadsheetName noFaults
          (start oneFolderWorld)).2).1 = Res.ok (target, file) ∧
      (resolveDestination (splitOn '/' targetFolderPath) spreadsheetName noFaults
        (resolveDestination (splitOn '/' targetFolderPath) spreadsheetName noFaults
          (start oneFolderWorld)).2).2.world =
        (resolveDestination (splitOn '/' targetFolderPath) spreadsheetName noFaults
          (start oneFolderWorld)).2.world ∧
      (resolveDestination (splitOn '/' targetFolderPath) spreadsheetName noFaults
        (resolveDestination (splitOn '/' targetFolderPath) spreadsheetName noFaults
          (start oneFolderWorld)).2).2.trace =
        (resolveDestination (splitOn '/' targetFolderPath) spreadsheetName noFaults
          (start oneFolderWorld)).2.trace :=
  resolveDestination_idempotent (splitOn '/' targetFolderPath) spreadsheetName
    (start oneFolderWorld) (by decide)

/-! ## Sheets -/

theorem find_map_update (files : List FileRec) (file : Nat) (f : FileRec → FileRec)
    (hf : ∀ r, (f r).id = r.id) :
    (files.map fun r => if r.id = file then f r else r).find? (fun r => r.id = file) =
      (files.find? fun r => r.id = file).map f := by
  induction files with
  | nil => rfl
  | cons a files ih =>
    by_cases h : a.id = file
    · simp [List.find?, h, hf]
    · rw [List.map_cons, if_neg h, List.find?_cons_of_neg _ (by simpa using h),
        List.find?_cons_of_neg _ (by simpa using h)]
      exact ih

theorem sheetsOf_updateFile (w : World) (file : Nat) (f : FileRec → FileRec)
    (hf : ∀ r, (f r).id = r.id) :
    sheetsOf (updateFile file f w) file =
      match w.files.find? fun r => r.id = file with
      | some r => (f r).sheets
      | none => [] := by
  unfold sheetsOf updateFile
  simp only [find_map_update _ _ _ hf]
  cases w.files.find? fun r => r.id = file <;> rfl

theorem sheetsOf_appendRowTo (w : World) (file : Nat) (row : List Cell) :
    sheetsOf (appendRowTo file w row) file = appendToFirst row (sheetsOf w file) := by
  unfold appendRowTo
  rw [sheetsOf_updateFile w file
    (fun r => { r with sheets := appendToFirst row r.sheets }) (fun _ => rfl)]
  unfold sheetsOf
  cases w.files.find? fun r => r.id = file <;> rfl

theorem firstSheetRows_appendRowTo (w : World) (file : Nat) (row : List Cell)
    (h : sheetsOf w file ≠ []) :
    sheetsOf (appendRowTo file w row) file ≠ [] ∧
    firstSheetRows (appendRowTo file w row) file = firstSheetRows w file ++ [row] := by
  unfold firstSheetRows
  rw [sheetsOf_appendRowTo]
  cases hs : sheetsOf w file with
  | nil => exact absurd hs h
  | cons sh rest => simp [appendToFirst]

theorem firstSheetRows_foldl (rows : List (List Cell)) (w : World) (file : Nat)
    (h : sheetsOf w file ≠ []) :
    firstSheetRows (rows.foldl (appendRowTo file) w) file = firstSheetRows w file ++ rows := by
  induction rows generalizing w with
  | nil => simp
  | cons row rows ih =>
    have h1 := firstSheetRows_appendRowTo w file row h
    rw [List.foldl_cons, ih _ h1.1, h1.2]
    simp

theorem sheetsOf_insertSheetTo (w : World) (file : Nat) (name : Str)
    (hex : ∃ r ∈ w.files, r.id = file) (h : sheetsOf w file = []) :
    sheetsOf (insertSheetTo file name w) file = [{ name := name, rows := [] }] := by
  unfold insertSheetTo
  rw [sheetsOf_updateFile w file
    (fun r => { r with sheets := r.sheets ++ [{ name := name, rows := [] }] }) (fun _ => rfl)]
  unfold sheetsOf at h
  cases hfind : w.files.find? fun r => r.id = file with
  | none =>
    obtain ⟨r, hr, hid⟩ := hex
    have := List.find?_eq_none.mp hfind r hr
    simp [hid] at this
  | some r =>
    rw [hfind] at h
    simp only at h ⊢
    rw [h]
    rfl

/-! ## A run without faults -/

theorem ensureLabel_noFaults (name : Str) (s : St) :
    ∃ s1 evs, ensureLabel name noFaults s = (Res.ok name, s1) ∧
      s1.world.found = s.world.found ∧ s1.world.marks = s.world.marks ∧
      s1.world.folders = s.world.folders ∧ s1.world.files = s.world.files ∧
      s1.world.nextId = s.world.nextId ∧
      s1.trace = s.trace ++ evs ∧ ∀ e ∈ evs, e = Event.createLabel name := by
  by_cases h : name ∈ s.world.labels
  · refine ⟨{ s with calls := s.calls + 1 + 1 }, [], ?_, rfl, rfl, rfl, rfl, rfl, by simp, by simp⟩
    simp only [ensureLabel, getUserLabelByName, labelGetName, bind_apply, query_noFaults, h,
      if_true, pure_apply]
  · refine ⟨{ world := { s.world with labels := s.world.labels ++ [name] },
              calls := s.calls + 1 + 1 + 1, trace := s.trace ++ [Event.createLabel name] },
      [Event.createLabel name], ?_, rfl, rfl, rfl, rfl, rfl, rfl, by simp⟩
    simp only [ensureLabel, getUserLabelByName, labelGetName, createLabel, bind_apply,
      query_noFaults, service_noFaults, h, if_false, pure_apply]

theorem processThread_noFaults (label : Str) (t : Thread) (s : St) (h : t.messages ≠ []) :
    processThread label t noFaults s =
      (Res.ok (latestRow t),
        { world := { s.world with marks := s.world.marks ++ [(t.id, label)] },
          calls := s.calls + 5, trace := s.trace ++ [markEvent label t] }) := by
  obtain ⟨m, hm⟩ : ∃ m, t.messages.getLast? = some m := by
    cases hl : t.messages.getLast? with
    | none => exact absurd (List.getLast?_eq_none_iff.mp hl) h
    | some m => exact ⟨m, rfl⟩
  simp only [processThread, getMessages, getBody, addLabel, getSubject, bind_apply,
    query_noFaults, service_noFaults, hm, pure_apply, latestRow, markEvent]

theorem processThreads_noFaults (label : Str) (ts : List Thread) (s : St)
    (h : ∀ t ∈ ts, t.messages ≠ []) :
    processThreads label ts noFaults s =
      (Res.ok (ts.map latestRow),
        { world := { s.world with marks := s.world.marks ++ ts.map fun t => (t.id, label) },
          calls := s.calls + 5 * ts.length,
          trace := s.trace ++ ts.map (markEvent label) }) := by
  induction ts generalizing s with
  | nil => simp [processThreads, pure_apply]
  | cons t ts ih =>
    rw [processThreads, bind_apply, processThread_noFaults label t s (h t (List.mem_cons_self _ _))]
    simp only [bind_apply, ih _ (fun x hx => h x (List.mem_cons_of_mem _ hx)), pure_apply]
    simp [Nat.mul_add, Nat.add_assoc, Nat.add_comm 5]

theorem writeRows_noFaults (file : Nat) (rows : List (List Cell)) (s : St) :
    writeRows file rows noFaults s =
      (Res.ok (),
        { world := rows.foldl (appendRowTo file) s.world, calls := s.calls + rows.length,
          trace := s.trace ++ rows.map (Event.appendRow file) }) := by
  induction rows generalizing s with
  | nil => simp [writeRows, pure_apply]
  | cons row rows ih =>
    rw [writeRows, bind_apply]
    simp only [appendRow, service_noFaults, ih]
    simp [Nat.add_assoc, Nat.add_comm 1]

theorem prepareSheet_eq (file : Nat) (s : St) :
    prepareSheet file noFaults s =
      (Res.ok (),
        { world :=
            if firstSheetRows (if sheetsOf s.world file = []
                then insertSheetTo file "Transacciones".data s.world else s.world) file = []
            then appendRowTo file (if sheetsOf s.world file = []
                then insertSheetTo file "Transacciones".data s.world else s.world) headers
            else (if sheetsOf s.world file = []
                then insertSheetTo file "Transacciones".data s.world else s.world),
          calls := s.calls + 2 + (if sheetsOf s.world file = [] then 1 else 0) +
            (if firstSheetRows (if sheetsOf s.world file = []
                then insertSheetTo file "Transacciones".data s.world else s.world) file = []
              then 1 else 0),
          trace := s.trace ++
            (if sheetsOf s.world file = [] then [Event.insertSheet file "Transacciones".data]
              else []) ++
            (if firstSheetRows (if sheetsOf s.world file = []
                then insertSheetTo file "Transacciones".data s.world else s.world) file = []
              then [Event.appendRow file headers] else []) }) := by
  by_cases h1 : sheetsOf s.world file = []
  · by_cases h2 : firstSheetRows (insertSheetTo file "Transacciones".data s.world) file = []
    · simp [prepareSheet, getSheets, insertSheet, getLastRow, appendRow, bind_apply,
        query_noFaults, service_noFaults, pure_apply, h1, h2]
    · simp [prepareSheet, getSheets, insertSheet, getLastRow, appendRow, bind_apply,
        query_noFaults, service_noFaults, pure_apply, h1, h2]
  · by_cases h2 : firstSheetRows s.world file = []
    · simp [prepareSheet, getSheets, insertSheet, getLastRow, appendRow, bind_apply,
        query_noFaults, service_noFaults, pure_apply, h1, h2]
    · simp [prepareSheet, getSheets, insertSheet, getLastRow, appendRow, bind_apply,
        query_noFaults, service_noFaults, pure_apply, h1, h2]

theorem prepareSheet_noFaults (file : Nat) (s : St) (hex : ∃ r ∈ s.world.files, r.id = file) :
    ∃ s1 ins, prepareSheet file noFaults s = (Res.ok (), s1) ∧
      s1.world.found = s.world.found ∧ s1.world.marks = s.world.marks ∧
      sheetsOf s1.world file ≠ [] ∧
      firstSheetRows s1.world file = firstSheetRows s.world file ++
        (if firstSheetRows s.world file = [] then [headers] else []) ∧
      s1.trace = s.trace ++ ins ++
        (if firstSheetRows s.world file = [] then [Event.appendRow file headers] else []) ∧
      (∀ e ∈ ins, e = Event.insertSheet file "Transacciones".data) := by
  refine ⟨_, if sheetsOf s.world file = [] then [Event.insertSheet file "Transacciones".data]
    else [], prepareSheet_eq file s, ?_⟩
  by_cases h1 : sheetsOf s.world file = []
  · have hs := sheetsOf_insertSheetTo s.world file "Transacciones".data hex h1
    have hr0 : firstSheetRows s.world file = [] := by simp [firstSheetRows, h1]
    have hr1 : firstSheetRows (insertSheetTo file "Transacciones".data s.world) file = [] := by
      simp [firstSheetRows, hs]
    have hne : sheetsOf (insertSheetTo file "Transacciones".data s.world) file ≠ [] := by
      simp [hs]
    have ha := firstSheetRows_appendRowTo _ file headers hne
    refine ⟨?_, ?_, ?_, ?_, ?_, ?_⟩
    · simp only [h1, hr1, if_true]
      rfl
    · simp only [h1, hr1, if_true]
      rfl
    · simp only [h1, hr1, if_true]
      exact ha.1
    · simp only [h1, hr0, hr1, if_true]
      rw [ha.2, hr1]
    · simp only [h1, hr0, hr1, if_true]
    · simp [h1]
  · by_cases h2 : firstSheetRows s.world file = []
    · have ha := firstSheetRows_appendRowTo _ file headers h1
      refine ⟨?_, ?_, ?_, ?_, ?_, ?_⟩
      · simp only [h1, h2, if_true, if_false]
        rfl
      · simp only [h1, h2, if_true, if_false]
        rfl
      · simp only [h1, h2, if_true, if_false]
        exact ha.1
      · simp only [h1, h2, if_true, if_false]
        rw [ha.2, h2]
      · simp only [h1, h2, if_true, if_false]
      · simp [h1]
    · refine ⟨?_, ?_, ?_, ?_, ?_, ?_⟩
      · simp only [h1, h2, if_false]
      · simp only [h1, h2, if_false]
      · simp only [h1, h2, if_false]
        exact h1
      · simp only [h1, h2, if_false]
        simp
      · simp only [h1, h2, if_false]
      · simp [h1]

theorem firstSheetRows_congr (w1 w2 : World) (file : Nat) (h : w1.files = w2.files) :
    firstSheetRows w1 file = firstSheetRows w2 file := by
  simp [firstSheetRows, sheetsOf, h]

theorem resolveDestination_ok (parts : List Str) (name : Str) (s : St)
    (hwf : WellFormed s.world) :
    ∃ target file s1 evs,
      resolveDestination parts name noFaults s = (Res.ok (target, file), s1) ∧
      s1.world.found = s.world.found ∧ s1.world.marks = s.world.marks ∧
      s1.trace = s.trace ++ evs ∧
      (∀ e ∈ evs, (∀ f row, e ≠ Event.appendRow f row) ∧ (∀ t l, e ≠ Event.addLabel t l)) ∧
      (∃ r ∈ s1.world.files, r.id = file) ∧
      firstSheetRows s1.world file = firstSheetRows s.world file := by
  obtain ⟨hroot, hfold, hfile⟩ := hwf
  obtain ⟨target, created, n, hrun, -, -, -, -, -, -, -⟩ :=
    walkFolders_spec parts rootId { s with calls := s.calls + 1 } hfold hroot
  dsimp only at hrun
  generalize hsW : ({ world := { s.world with folders := s.world.folders ++ created,
                                              nextId := s.world.nextId + created.length },
                      calls := s.calls + 1 + n,
                      trace := s.trace ++ created.map createdEvent } : St) = sW at hrun
  have hWfiles : sW.world.files = s.world.files := by rw [← hsW]
  have hWnext : sW.world.nextId = s.world.nextId + created.length := by rw [← hsW]
  have hWtrace : sW.trace = s.trace ++ created.map createdEvent := by rw [← hsW]
  have hWfound : sW.world.found = s.world.found := by rw [← hsW]
  have hWmarks : sW.world.marks = s.world.marks := by rw [← hsW]
  have hcreated : ∀ e ∈ created.map createdEvent,
      (∀ f row, e ≠ Event.appendRow f row) ∧ (∀ t l, e ≠ Event.addLabel t l) := by
    intro e he
    obtain ⟨c, -, rfl⟩ := List.mem_map.mp he
    exact ⟨fun _ _ h => Event.noConfusion h, fun _ _ h => Event.noConfusion h⟩
  have hres := resolveDestination_eq parts name s sW target hrun
  cases hfil : s.world.files.filter (fun f => f.name = name ∧ target ∈ f.parents) with
  | cons r rs =>
    have hrm : r ∈ s.world.files.filter (fun f => f.name = name ∧ target ∈ f.parents) := by
      rw [hfil]
      exact List.mem_cons_self _ _
    have hr : r ∈ s.world.files := (List.mem_filter.mp hrm).1
    rw [findOrCreate_found target name { sW with calls := sW.calls + 1 + 1 } r rs
      (by rw [← hfil, ← hWfiles])] at hres
    dsimp only at hres
    refine ⟨target, r.id, _, created.map createdEvent, hres, hWfound, hWmarks, hWtrace,
      hcreated, ⟨r, by rw [hWfiles]; exact hr, rfl⟩, firstSheetRows_congr _ _ _ hWfiles⟩
  | nil =>
    have hfresh : ∀ r ∈ s.world.files, r.id ≠ sW.world.nextId := by
      intro r hr
      have := (hfile r hr).1
      omega
    rw [findOrCreate_create target name { sW with calls := sW.calls + 1 + 1 }
      (fun r hr => by
        have h1 : r ∈ s.world.files := by rw [← hWfiles]; exact hr
        have := (hfile r h1).1
        dsimp only
        omega)
      (by rw [← hfil, ← hWfiles])] at hres
    dsimp only at hres
    have hnone : s.world.files.find? (fun r => r.id = sW.world.nextId) = none := by
      rw [List.find?_eq_none]
      intro r hr
      simpa using hfresh r hr
    refine ⟨target, sW.world.nextId, _,
      created.map createdEvent ++ [Event.createSpreadsheet name sW.world.nextId,
        Event.removeFile rootId sW.world.nextId, Event.addFile target sW.world.nextId],
      hres, hWfound, hWmarks, ?_, ?_, ?_, ?_⟩
    · simp [hWtrace]
    · intro e he
      rcases List.mem_append.mp he with h | h
      · exact hcreated e h
      · simp only [List.mem_cons, List.mem_singleton, List.not_mem_nil, or_false] at h
        rcases h with h | h | h <;> subst h <;>
          exact ⟨fun _ _ h => Event.noConfusion h, fun _ _ h => Event.noConfusion h⟩
    · exact ⟨_, List.mem_append_right _ (List.mem_singleton_self _), rfl⟩
    · simp only [firstSheetRows, sheetsOf, hWfiles, List.find?_append, hnone]
      simp

/-- The rows and the marks of `processSheet` when nothing fails. -/
theorem processSheet_noFaults (label : Str) (threads : List Thread) (file : Nat) (s : St)
    (hex : ∃ r ∈ s.world.files, r.id = file) (hne : threads ≠ [])
    (hmsg : ∀ t ∈ threads, t.messages ≠ []) :
    ∃ s1 ins, processSheet label threads file noFaults s = (Res.ok (), s1) ∧
      s1.trace = s.trace ++ ins ++
        (if firstSheetRows s.world file = [] then [Event.appendRow file headers] else []) ++
        threads.map (markEvent label) ++
        threads.map (fun t => Event.appendRow file (latestRow t)) ∧
      (∀ e ∈ ins, e = Event.insertSheet file "Transacciones".data) ∧
      firstSheetRows s1.world file = firstSheetRows s.world file ++
        (if firstSheetRows s.world file = [] then [headers] else []) ++
        threads.map latestRow ∧
      s1.world.marks = s.world.marks ++ threads.map fun t => (t.id, label) := by
  obtain ⟨sP, ins, hP, -, hPmarks, hPsheets, hProws, hPtrace, hins⟩ :=
    prepareSheet_noFaults file s hex
  have hlen : (threads.map latestRow).length > 0 := by
    rw [List.length_map]
    exact List.length_pos.mpr hne
  have hrun : processSheet label threads file noFaults s =
      (Res.ok (),
        { world := (threads.map latestRow).foldl (appendRowTo file)
            { sP.world with marks := sP.world.marks ++ threads.map fun t => (t.id, label) },
          calls := sP.calls + 5 * threads.length + (threads.map latestRow).length + 1,
          trace := sP.trace ++ threads.map (markEvent label) ++
            (threads.map latestRow).map (Event.appendRow file) }) := by
    simp only [processSheet, bind_apply, hP, processThreads_noFaults label threads sP hmsg,
      hlen, if_true, writeRows_noFaults, sheetGetName, query_noFaults]
  refine ⟨_, ins, hrun, ?_, hins, ?_, ?_⟩
  · simp only [hPtrace, List.map_map]
    rfl
  · have hs : sheetsOf
        { sP.world with marks := sP.world.marks ++ threads.map fun t => (t.id, label) } file ≠
        [] := hPsheets
    rw [firstSheetRows_foldl _ _ _ hs]
    have : firstSheetRows
        { sP.world with marks := sP.world.marks ++ threads.map fun t => (t.id, label) } file =
        firstSheetRows sP.world file := rfl
    rw [this, hProws]
  · have key : ∀ (rows : List (List Cell)) (w : World),
        (rows.foldl (appendRowTo file) w).marks = w.marks := by
      intro rows
      induction rows with
      | nil => intro w; rfl
      | cons row rows ih =>
        intro w
        rw [List.foldl_cons, ih]
        rfl
    dsimp only
    rw [key, hPmarks]

theorem processFound_noFaults (label : Str) (s : St) (hwf : WellFormed s.world)
    (hne : s.world.found ≠ []) (hmsg : ∀ t ∈ s.world.found, t.messages ≠ []) :
    ∃ file s1 setup, processFound label noFaults s = (Res.ok (), s1) ∧
      s1.trace = s.trace ++ setup ++
        (if firstSheetRows s.world file = [] then [Event.appendRow file headers] else []) ++
        s.world.found.map (markEvent label) ++
        s.world.found.map (fun t => Event.appendRow file (latestRow t)) ∧
      (∀ e ∈ setup, (∀ f row, e ≠ Event.appendRow f row) ∧ (∀ t l, e ≠ Event.addLabel t l)) ∧
      firstSheetRows s1.world file = firstSheetRows s.world file ++
        (if firstSheetRows s.world file = [] then [headers] else []) ++
        s.world.found.map latestRow ∧
      s1.world.marks = s.world.marks ++ s.world.found.map fun t => (t.id, label) := by
  obtain ⟨target, file, s2, evs2, h2, hfound2, hmarks2, htrace2, hevs2, hex2, hrows2⟩ :=
    resolveDestination_ok (splitOn '/' targetFolderPath) spreadsheetName
      { s with calls := s.calls + 1 } hwf
  dsimp only at hfound2 hmarks2 htrace2 hrows2
  obtain ⟨s3, ins, h3, htrace3, hins, hrows3, hmarks3⟩ :=
    processSheet_noFaults label s.world.found file s2 hex2 hne hmsg
  have hlen : ¬ s.world.found.length = 0 := fun h => hne (List.length_eq_zero.mp h)
  have hrun : processFound label noFaults s = (Res.ok (), s3) := by
    simp only [processFound, gmailSearch, bind_apply, query_noFaults, hlen, if_false, tryCatch,
      h2, pure_apply, h3]
  refine ⟨file, s3, evs2 ++ ins, hrun, ?_, ?_, ?_, ?_⟩
  · rw [htrace3, htrace2, hrows2]
    simp
  · intro e he
    rcases List.mem_append.mp he with h | h
    · exact hevs2 e h
    · rw [hins e h]
      exact ⟨fun _ _ h => Event.noConfusion h, fun _ _ h => Event.noConfusion h⟩
  · rw [hrows3, hrows2]
  · rw [hmarks3, hmarks2]

/-- The effects and the final sheet of a run in which nothing fails. -/
theorem run_noFaults_spec (w : World) (hwf : WellFormed w) (hne : w.found ≠ [])
    (hmsg : ∀ t ∈ w.found, t.messages ≠ []) :
    ∃ (file : Nat) (setup : List Event),
      (processMonthlyTransactions noFaults (start w)).1 = Res.ok () ∧
      (processMonthlyTransactions noFaults (start w)).2.trace =
        setup ++ (if firstSheetRows w file = [] then [Event.appendRow file headers] else []) ++
          w.found.map (markEvent processedLabelName) ++
          w.found.map (fun t => Event.appendRow file (latestRow t)) ∧
      (∀ e ∈ setup, (∀ f row, e ≠ Event.appendRow f row) ∧ (∀ t l, e ≠ Event.addLabel t l)) ∧
      firstSheetRows (processMonthlyTransactions noFaults (start w)).2.world file =
        firstSheetRows w file ++ (if firstSheetRows w file = [] then [headers] else []) ++
          w.found.map latestRow ∧
      (processMonthlyTransactions noFaults (start w)).2.world.marks =
        w.marks ++ w.found.map fun t => (t.id, processedLabelName) := by
  obtain ⟨s1, evs1, h1, hfound1, hmarks1, hfolders1, hfiles1, hnext1, htrace1, hevs1⟩ :=
    ensureLabel_noFaults processedLabelName (start w)
  simp only [start] at hfound1 hmarks1 hfolders1 hfiles1 hnext1 htrace1
  have hwf1 : WellFormed s1.world := by
    unfold WellFormed at hwf ⊢
    rw [hfolders1, hfiles1, hnext1]
    exact hwf
  obtain ⟨file, s3, setup, hrun3, htrace3, hsetup, hrows3, hmarks3⟩ :=
    processFound_noFaults processedLabelName s1 hwf1 (by rw [hfound1]; exact hne)
      (by rw [hfound1]; exact hmsg)
  have hrun : processMonthlyTransactions noFaults (start w) = (Res.ok (), s3) := by
    simp only [processMonthlyTransactions, bind_apply, h1, tryCatch, hrun3]
  have hrows1 : firstSheetRows s1.world file = firstSheetRows w file :=
    firstSheetRows_congr _ _ _ hfiles1
  refine ⟨file, evs1 ++ setup, ?_, ?_, ?_, ?_, ?_⟩
  · rw [hrun]
  · rw [hrun]
    dsimp only
    rw [htrace3, htrace1, hfound1, hrows1]
    simp
  · intro e he
    rcases List.mem_append.mp he with h | h
    · rw [hevs1 e h]
      exact ⟨fun _ _ h => Event.noConfusion h, fun _ _ h => Event.noConfusion h⟩
    · exact hsetup e h
  · rw [hrun]
    dsimp only
    rw [hrows3, hfound1, hrows1]
  · rw [hrun]
    dsimp only
    rw [hmarks3, hmarks1, hfound1]

theorem filter_isMark_map (label : Str) (ts : List Thread) :
    (ts.map (markEvent label)).filter isMark = ts.map (markEvent label) := by
  induction ts with
  | nil => rfl
  | cons t ts ih => simp [markEvent, isMark, List.filter_cons] at ih ⊢

theorem filter_isRow_map (file : Nat) (rows : List (List Cell)) :
    (rows.map (Event.appendRow file)).filter isRow = rows.map (Event.appendRow file) := by
  induction rows with
  | nil => rfl
  | cons r rows ih => simp [isRow, List.filter_cons] at ih ⊢

theorem filter_isRow_marks (label : Str) (ts : List Thread) :
    (ts.map (markEvent label)).filter isRow = [] := by
  induction ts with
  | nil => rfl
  | cons t ts ih => simp [markEvent, isRow, List.filter_cons] at ih ⊢

theorem filter_isMark_rows (file : Nat) (rows : List (List Cell)) :
    (rows.map (Event.appendRow file)).filter isMark = [] := by
  induction rows with
  | nil => rfl
  | cons r rows ih => simp [isMark, List.filter_cons] at ih ⊢

/-- C10: when no service call fails, for a non-empty search result whose conversations
each have a message, one run ends normally; the rows it appends are the header row if
the first sheet was empty, then, for each conversation in order, the five-cell row
extracted from its latest message; the first sheet ends as its rows before the run
followed by these rows; and the marks it applies are one per conversation, in order. -/
theorem run_appends_rows (w : World) (hwf : WellFormed w) (hne : w.found ≠ [])
    (hmsg : ∀ t ∈ w.found, t.messages ≠ []) :
    ∃ file : Nat,
      (processMonthlyTransactions noFaults (start w)).1 = Res.ok () ∧
      (processMonthlyTransactions noFaults (start w)).2.trace.filter isRow =
        (if firstSheetRows w file = [] then [Event.appendRow file headers] else []) ++
          w.found.map (fun t => Event.appendRow file (latestRow t)) ∧
      firstSheetRows (processMonthlyTransactions noFaults (start w)).2.world file =
        firstSheetRows w file ++ (if firstSheetRows w file = [] then [headers] else []) ++
          w.found.map latestRow ∧
      (∀ t ∈ w.found, ∃ m, t.messages.getLast? = some m ∧ latestRow t = rowData m.body ∧
        (latestRow t).length = 5) ∧
      (processMonthlyTransactions noFaults (start w)).2.trace.filter isMark =
        w.found.map (markEvent processedLabelName) ∧
      (processMonthlyTransactions noFaults (start w)).2.world.marks =
        w.marks ++ w.found.map fun t => (t.id, processedLabelName) := by
  obtain ⟨file, setup, hok, htrace, hsetup, hrows, hmarks⟩ := run_noFaults_spec w hwf hne hmsg
  have hs1 : setup.filter isRow = [] := by
    rw [List.filter_eq_nil_iff]
    intro e he
    cases e <;> simp [isRow]
    exact (hsetup _ he).1 _ _ rfl
  have hs2 : setup.filter isMark = [] := by
    rw [List.filter_eq_nil_iff]
    intro e he
    cases e <;> simp [isMark]
    exact (hsetup _ he).2 _ _ rfl
  have hmapRows : w.found.map (fun t => Event.appendRow file (latestRow t)) =
      (w.found.map latestRow).map (Event.appendRow file) := by
    rw [List.map_map]
    rfl
  refine ⟨file, hok, ?_, hrows, ?_, ?_, hmarks⟩
  · rw [htrace, hmapRows]
    simp only [List.filter_append, hs1, filter_isRow_marks, filter_isRow_map, List.nil_append,
      List.append_nil]
    split_ifs <;> simp [isRow]
  · intro t ht
    cases hl : t.messages.getLast? with
    | none => exact absurd (List.getLast?_eq_none_iff.mp hl) (hmsg t ht)
    | some m => exact ⟨m, rfl, by simp [latestRow, hl], by simp [latestRow, hl, rowData]⟩
  · rw [htrace, hmapRows]
    simp only [List.filter_append, hs2, filter_isMark_map, filter_isMark_rows, List.nil_append,
      List.append_nil]
    split_ifs <;> simp [isMark]

theorem run_appends_rows_witness :
    ∃ file : Nat,
      (processMonthlyTransactions noFaults (start twoThreadWorld)).1 = Res.ok () ∧
      (processMonthlyTransactions noFaults (start twoThreadWorld)).2.trace.filter isRow =
        (if firstSheetRows twoThreadWorld file = [] then [Event.appendRow file headers]
          else []) ++
          twoThreadWorld.found.map (fun t => Event.appendRow file (latestRow t)) ∧
      firstSheetRows (processMonthlyTransactions noFaults (start twoThreadWorld)).2.world file =
        firstSheetRows twoThreadWorld file ++
          (if firstSheetRows twoThreadWorld file = [] then [headers] else []) ++
          twoThreadWorld.found.map latestRow ∧
      (∀ t ∈ twoThreadWorld.found, ∃ m, t.messages.getLast? = some m ∧
        latestRow t = rowData m.body ∧ (latestRow t).length = 5) ∧
      (processMonthlyTransactions noFaults (start twoThreadWorld)).2.trace.filter isMark =
        twoThreadWorld.found.map (markEvent processedLabelName) ∧
      (processMonthlyTransactions noFaults (start twoThreadWorld)).2.world.marks =
        twoThreadWorld.marks ++ twoThreadWorld.found.map fun t => (t.id, processedLabelName) :=
  run_appends_rows twoThreadWorld (by decide) (by decide) (by decide)

/-! ## Order of effects under faults -/

theorem emits_pure {α : Type} (P : Event → Prop) (a : α) : Emits P (pure a : Prog α) :=
  fun _ s => ⟨[], by simp [pure_apply], by simp, rfl⟩

theorem emits_bind {α β : Type} (P : Event → Prop) (p : Prog α) (f : α → Prog β)
    (hp : Emits P p) (hf : ∀ a, Emits P (f a)) : Emits P (p >>= f) := by
  intro orc s
  obtain ⟨e1, h1, hP1, hw1⟩ := hp orc s
  rw [bind_apply]
  rcases hr : p orc s with ⟨r, s1⟩
  rw [hr] at h1 hw1
  cases r with
  | thrown => exact ⟨e1, h1, hP1, hw1⟩
  | ok a =>
    obtain ⟨e2, h2, hP2, hw2⟩ := hf a orc s1
    refine ⟨e1 ++ e2, ?_, ?_, ?_⟩
    · dsimp only at h1 ⊢
      rw [h2, h1, List.append_assoc]
    · intro e he
      rcases List.mem_append.mp he with h | h
      · exact hP1 e h
      · exact hP2 e h
    · dsimp only at hw1 ⊢
      rw [hw2, hw1]

theorem emits_tryCatch {α : Type} (P : Event → Prop) (p h : Prog α)
    (hp : Emits P p) (hh : Emits P h) : Emits P (tryCatch p h) := by
  intro orc s
  obtain ⟨e1, h1, hP1, hw1⟩ := hp orc s
  unfold tryCatch
  rcases hr : p orc s with ⟨r, s1⟩
  rw [hr] at h1 hw1
  cases r with
  | ok a => exact ⟨e1, h1, hP1, hw1⟩
  | thrown =>
    obtain ⟨e2, h2, hP2, hw2⟩ := hh orc s1
    refine ⟨e1 ++ e2, ?_, ?_, ?_⟩
    · dsimp only at h1 ⊢
      rw [h2, h1, List.append_assoc]
    · intro e he
      rcases List.mem_append.mp he with h | h
      · exact hP1 e h
      · exact hP2 e h
    · dsimp only at hw1 ⊢
      rw [hw2, hw1]

theorem emits_service {α : Type} (P : Event → Prop) (act : World → α × World × List Event)
    (hev : ∀ w, ∀ e ∈ (act w).2.2, P e) (hfound : ∀ w, (act w).2.1.found = w.found) :
    Emits P (service act) := by
  intro orc s
  rw [service_apply]
  by_cases h : orc s.calls = true
  · rw [if_pos h]
    exact ⟨[], by simp, by simp, rfl⟩
  · rw [if_neg h]
    exact ⟨(act s.world).2.2, rfl, hev s.world, hfound s.world⟩

theorem emits_query {α : Type} (P : Event → Prop) (read : World → α) : Emits P (query read) :=
  emits_service P _ (fun _ e he => by simp at he) (fun _ => rfl)

theorem emits_ensureLabel (name : Str) : Emits SetupEvent (ensureLabel name) := by
  unfold ensureLabel
  refine emits_bind _ _ _ (emits_query _ _) fun existing => ?_
  cases existing with
  | some l =>
    dsimp only
    exact emits_bind _ _ _ (emits_pure _ _) fun y =>
      emits_bind _ _ _ (emits_query _ _) fun _ => emits_pure _ _
  | none =>
    dsimp only
    refine emits_bind _ _ _ ?_ fun y =>
      emits_bind _ _ _ (emits_query _ _) fun _ => emits_pure _ _
    exact emits_service _ _ (fun w e he => by
      simp only [List.mem_singleton] at he
      subst he
      trivial) (fun _ => rfl)

theorem emits_enterFolder (cur : Nat) (part : Str) : Emits SetupEvent (enterFolder cur part) := by
  unfold enterFolder
  refine emits_bind _ _ _ (emits_query _ _) fun subFolders => ?_
  cases subFolders with
  | cons f fs => exact emits_pure _ _
  | nil =>
    exact emits_service _ _ (fun w e he => by
      simp only [List.mem_singleton] at he
      subst he
      trivial) (fun _ => rfl)

theorem emits_walkFolders (parts : List Str) (cur : Nat) :
    Emits SetupEvent (walkFolders parts cur) := by
  induction parts generalizing cur with
  | nil => exact emits_pure _ _
  | cons part rest ih =>
    rw [walkFolders]
    exact emits_bind _ _ _ (emits_enterFolder cur part) fun next => ih next

theorem emits_findOrCreate (target : Nat) (name : Str) :
    Emits SetupEvent (findOrCreateSpreadsheet target name) := by
  unfold findOrCreateSpreadsheet
  refine emits_bind _ _ _ (emits_query _ _) fun files => ?_
  cases files with
  | cons f fs => exact emits_query _ _
  | nil =>
    refine emits_bind _ _ _ (emits_service _ _ (fun w e he => by
      simp only [List.mem_singleton] at he
      subst he
      trivial) (fun _ => rfl)) fun ss => ?_
    refine emits_bind _ _ _ (emits_query _ _) fun id => ?_
    refine emits_bind _ _ _ (emits_query _ _) fun file => ?_
    refine emits_bind _ _ _ (emits_query _ _) fun root => ?_
    refine emits_bind _ _ _ (emits_service _ _ (fun w e he => by
      simp only [List.mem_singleton] at he
      subst he
      trivial) (fun _ => rfl)) fun _ => ?_
    refine emits_bind _ _ _ (emits_service _ _ (fun w e he => by
      simp only [List.mem_singleton] at he
      subst he
      trivial) (fun _ => rfl)) fun _ => ?_
    exact emits_pure _ _

theorem emits_resolveDestination (parts : List Str) (name : Str) :
    Emits SetupEvent (resolveDestination parts name) := by
  unfold resolveDestination
  refine emits_bind _ _ _ (emits_query _ _) fun root => ?_
  refine emits_bind _ _ _ (emits_walkFolders _ _) fun target => ?_
  refine emits_bind _ _ _ (emits_query _ _) fun _ => ?_
  refine emits_bind _ _ _ (emits_query _ _) fun _ => ?_
  exact emits_bind _ _ _ (emits_findOrCreate _ _) fun ss => emits_pure _ _

theorem emits_prepareSheet (file : Nat) : Emits SetupEvent (prepareSheet file) := by
  have hlast : Emits SetupEvent (do
      let lastRow ← getLastRow file
      if lastRow = 0 then appendRow file headers else pure PUnit.unit) := by
    refine emits_bind _ _ _ (emits_query _ _) fun lastRow => ?_
    split
    · exact emits_service _ _ (fun w e he => by
        simp only [List.mem_singleton] at he
        subst he
        exact rfl) (fun _ => rfl)
    · exact emits_pure _ _
  unfold prepareSheet
  refine emits_bind _ _ _ (emits_query _ _) fun sheets => ?_
  dsimp only
  split
  · refine emits_bind _ _ _ ?_ fun _ => hlast
    exact emits_service _ _ (fun w e he => by
      simp only [List.mem_singleton] at he
      subst he
      trivial) (fun _ => rfl)
  · exact emits_bind _ _ _ (emits_pure _ _) fun _ => hlast

theorem processThread_trace (label : Str) (t : Thread) (orc : Nat → Bool) (s : St) :
    ((processThread label t orc s).2.trace = s.trace ∧
      (processThread label t orc s).1 = Res.thrown) ∨
    (processThread label t orc s).2.trace = s.trace ++ [markEvent label t] := by
  unfold processThread getMessages getBody addLabel getSubject
  simp only [bind_apply, query_apply, service_apply]
  by_cases h0 : orc s.calls = true
  · simp [h0]
  · cases hl : t.messages.getLast? with
    | none => simp [h0, hl, throwFault]
    | some m =>
      by_cases h1 : orc (s.calls + 1) = true
      · simp [hl, h0, h1, bind_apply, query_apply, service_apply]
      · by_cases h2 : orc (s.calls + 1 + 1) = true
        · simp [hl, h0, h1, h2, bind_apply, query_apply, service_apply]
        · right
          by_cases h3 : orc (s.calls + 1 + 1 + 1) = true
          · simp [hl, h0, h1, h2, h3, bind_apply, query_apply, service_apply, markEvent]
          · by_cases h4 : orc (s.calls + 1 + 1 + 1 + 1) = true
            · simp [hl, h0, h1, h2, h3, h4, bind_apply, query_apply, service_apply, markEvent,
                pure_apply]
            · simp [hl, h0, h1, h2, h3, h4, bind_apply, query_apply, service_apply, markEvent,
                pure_apply]

theorem processThreads_trace (label : Str) (ts : List Thread) (orc : Nat → Bool) (s : St) :
    ∃ k, (processThreads label ts orc s).2.trace = s.trace ++ (ts.take k).map (markEvent label) ∧
      (∀ rows, (processThreads label ts orc s).1 = Res.ok rows → ts.length ≤ k) := by
  induction ts generalizing s with
  | nil => exact ⟨0, by simp [processThreads, pure_apply], fun _ _ => Nat.le_refl _⟩
  | cons t ts ih =>
    rw [processThreads, bind_apply]
    have h1 := processThread_trace label t orc s
    rcases hr : processThread label t orc s with ⟨r, s1⟩
    rw [hr] at h1
    dsimp only at h1
    cases r with
    | thrown =>
      rcases h1 with ⟨h, -⟩ | h
      · exact ⟨0, by simp [h], fun _ hc => by simp at hc⟩
      · exact ⟨1, by simp [h], fun _ hc => by simp at hc⟩
    | ok row =>
      have h1 : s1.trace = s.trace ++ [markEvent label t] := by
        rcases h1 with ⟨-, h⟩ | h
        · cases h
        · exact h
      obtain ⟨k, hk, hok⟩ := ih s1
      dsimp only
      rw [bind_apply]
      rcases hr2 : processThreads label ts orc s1 with ⟨r2, s2⟩
      rw [hr2] at hk hok
      dsimp only at hk hok
      cases r2 with
      | thrown => exact ⟨k + 1, by simp [hk, h1], fun _ hc => by simp at hc⟩
      | ok rows =>
        refine ⟨k + 1, by simp [hk, h1, pure_apply], fun _ _ => ?_⟩
        have := hok rows rfl
        simp only [List.length_cons]
        omega

theorem emits_writeRows (file : Nat) (rows : List (List Cell)) :
    Emits (fun e => isRow e = true) (writeRows file rows) := by
  induction rows with
  | nil => exact emits_pure _ _
  | cons row rows ih =>
    rw [writeRows]
    refine emits_bind _ _ _ ?_ fun _ => ih
    exact emits_service _ _ (fun w e he => by
      simp only [List.mem_singleton] at he
      subst he
      rfl) (fun _ => rfl)

theorem marksThenRows_after_setup (label : Str) (threads : List Thread)
    (before evs after : List Event) (h : ∀ e ∈ evs, SetupEvent e)
    (hm : MarksThenRows label threads (before ++ evs) after) :
    MarksThenRows label threads before after := by
  obtain ⟨setup, k, writes, h1, h2, h3, h4⟩ := hm
  refine ⟨evs ++ setup, k, writes, by rw [h1]; simp, ?_, h3, h4⟩
  intro e he
  rcases List.mem_append.mp he with h5 | h5
  · exact h e h5
  · exact h2 e h5

theorem processSheet_trace (label : Str) (threads : List Thread) (file : Nat)
    (orc : Nat → Bool) (s : St) :
    MarksThenRows label threads s.trace (processSheet label threads file orc s).2.trace := by
  obtain ⟨evs, he, hP, -⟩ := emits_prepareSheet file orc s
  refine marksThenRows_after_setup label threads s.trace evs _ hP ?_
  rw [processSheet, bind_apply]
  rcases hr : prepareSheet file orc s with ⟨r, s1⟩
  rw [hr] at he
  dsimp only at he
  rw [← he]
  cases r with
  | thrown => exact ⟨[], 0, [], by simp, by simp, by simp, fun hc => absurd rfl hc⟩
  | ok u =>
    obtain ⟨k, hk, hok⟩ := processThreads_trace label threads orc s1
    dsimp only
    rw [bind_apply]
    rcases hr2 : processThreads label threads orc s1 with ⟨r2, s2⟩
    rw [hr2] at hk hok
    dsimp only at hk hok
    cases r2 with
    | thrown => exact ⟨[], k, [], by simp [hk], by simp, by simp, fun hc => absurd rfl hc⟩
    | ok rows =>
      dsimp only
      have hw : Emits (fun e => isRow e = true)
          (if rows.length > 0 then (do
            writeRows file rows
            sheetGetName file) else pure PUnit.unit) := by
        split
        · exact emits_bind _ _ _ (emits_writeRows file rows) fun _ => emits_query _ _
        · exact emits_pure _ _
      obtain ⟨ws, hws, hrow, -⟩ := hw orc s2
      exact ⟨[], k, ws, by rw [hws, hk]; simp, by simp, hrow, fun _ => hok rows rfl⟩

theorem processFound_trace (label : Str) (orc : Nat → Bool) (s : St) :
    MarksThenRows label s.world.found s.trace (processFound label orc s).2.trace := by
  rw [processFound, bind_apply, gmailSearch, query_apply]
  by_cases h0 : orc s.calls = true
  · rw [if_pos h0]
    exact ⟨[], 0, [], by simp, by simp, by simp, fun hc => absurd rfl hc⟩
  · rw [if_neg h0]
    dsimp only
    split
    · exact ⟨[], 0, [], by simp [pure_apply], by simp, by simp, fun hc => absurd rfl hc⟩
    · have hres : Emits SetupEvent (tryCatch (do
          let d ← resolveDestination (splitOn '/' targetFolderPath) spreadsheetName
          pure (some d)) (pure none)) :=
        emits_tryCatch _ _ _
          (emits_bind _ _ _ (emits_resolveDestination _ _) fun d => emits_pure _ _)
          (emits_pure _ _)
      obtain ⟨evs, he, hP, -⟩ := hres orc { s with calls := s.calls + 1 }
      dsimp only at he
      refine marksThenRows_after_setup label s.world.found s.trace evs _ hP ?_
      rw [bind_apply]
      rcases hr : tryCatch (do
          let d ← resolveDestination (splitOn '/' targetFolderPath) spreadsheetName
          pure (some d)) (pure none) orc { s with calls := s.calls + 1 } with ⟨r, s1⟩
      rw [hr] at he
      dsimp only at he
      rw [← he]
      cases r with
      | thrown => exact ⟨[], 0, [], by simp, by simp, by simp, fun hc => absurd rfl hc⟩
      | ok dest =>
        cases dest with
        | none => exact ⟨[], 0, [], by simp [pure_apply], by simp, by simp, fun hc => absurd rfl hc⟩
        | some d => exact processSheet_trace label s.world.found d.2 orc s1

theorem ensureLabel_value (name : Str) (orc : Nat → Bool) (s : St) (l : Str)
    (h : (ensureLabel name orc s).1 = Res.ok l) : l = name := by
  unfold ensureLabel getUserLabelByName createLabel labelGetName at h
  by_cases h0 : orc s.calls = true
  · simp [bind_apply, query_apply, service_apply, pure_apply, h0] at h
  · by_cases hl : name ∈ s.world.labels
    · by_cases h1 : orc (s.calls + 1) = true
      · simp [bind_apply, query_apply, service_apply, pure_apply, h0, hl, h1] at h
      · simp [bind_apply, query_apply, service_apply, pure_apply, h0, hl, h1] at h
        exact h.symm
    · by_cases h1 : orc (s.calls + 1) = true
      · simp [bind_apply, query_apply, service_apply, pure_apply, h0, hl, h1] at h
      · by_cases h2 : orc (s.calls + 1 + 1) = true
        · simp [bind_apply, query_apply, service_apply, pure_apply, h0, hl, h1, h2] at h
        · simp [bind_apply, query_apply, service_apply, pure_apply, h0, hl, h1, h2] at h
          exact h.symm

theorem run_trace (orc : Nat → Bool) (w : World) :
    MarksThenRows processedLabelName w.found []
      (processMonthlyTransactions orc (start w)).2.trace := by
  obtain ⟨evs, he, hP, hfound⟩ := emits_ensureLabel processedLabelName orc (start w)
  have he2 : (ensureLabel processedLabelName orc (start w)).2.trace = [] ++ evs := by
    rw [he]
    rfl
  refine marksThenRows_after_setup _ _ [] evs _ hP ?_
  rw [processMonthlyTransactions, bind_apply]
  rcases hr : ensureLabel processedLabelName orc (start w) with ⟨r, s1⟩
  rw [hr] at he2 hfound
  dsimp only at he2 hfound
  rw [← he2]
  cases r with
  | thrown => exact ⟨[], 0, [], by simp, by simp, by simp, fun hc => absurd rfl hc⟩
  | ok l =>
    have hf : s1.world.found = w.found := hfound
    have hl : l = processedLabelName :=
      ensureLabel_value processedLabelName orc (start w) l (by rw [hr])
    subst hl
    have := processFound_trace processedLabelName orc s1
    rw [hf] at this
    dsimp only
    unfold tryCatch
    rcases hr2 : processFound processedLabelName orc s1 with ⟨r2, s2⟩
    rw [hr2] at this
    cases r2 with
    | ok u => exact this
    | thrown => exact this

theorem twoThreadWorld_rows :
    twoThreadWorld.found.map latestRow =
      [[Cell.text "Tienda XYZ".data, Cell.text "San Jose, CR".data,
        Cell.text "Ene 5, 2025, 10:30".data, Cell.text "COMPRA".data,
        Cell.number (Num.dec 123456 (-2))],
       [Cell.text "Tienda XYZ".data, Cell.text "San Jose, CR".data, Cell.text "N/A".data,
        Cell.text "COMPRA".data, Cell.number (Num.dec 123456 (-2))]] := by
  decide

theorem not_setup_or_mark (label : Str) (threads : List Thread) (setup : List Event) (k : Nat)
    (file : Nat) (row : List Cell) (hdata : row ≠ headers) (hs : ∀ e ∈ setup, SetupEvent e) :
    Event.appendRow file row ∉ setup ++ (threads.take k).map (markEvent label) := by
  intro hm
  rcases List.mem_append.mp hm with h | h
  · exact hdata (hs _ h)
  · obtain ⟨t, -, ht⟩ := List.mem_map.mp h
    exact Event.noConfusion ht

/-- C4 (amended): in every run, whatever service calls fail, all marks precede all data
rows: at any point of the run (a prefix `pre` of the effect sequence) where a data
row has been appended, every conversation returned by the search already bears the
marker, and no mark comes later. -/
theorem marks_precede_rows (orc : Nat → Bool) (w : World) (pre suf : List Event)
    (h : (processMonthlyTransactions orc (start w)).2.trace = pre ++ suf)
    (file : Nat) (row : List Cell) (hrow : Event.appendRow file row ∈ pre)
    (hdata : row ≠ headers) :
    (∀ t ∈ w.found, markEvent processedLabelName t ∈ pre) ∧ (∀ e ∈ suf, isMark e = false) := by
  obtain ⟨setup, k, writes, htrace, hsetup, hwrites, hk⟩ := run_trace orc w
  rw [h, List.nil_append] at htrace
  have hnot := not_setup_or_mark processedLabelName w.found setup k file row hdata hsetup
  rcases List.append_eq_append_iff.mp htrace with ⟨a, ha, -⟩ | ⟨c, hc, hw⟩
  · rw [ha] at hnot
    exact absurd (List.mem_append_left _ hrow) hnot
  · have hcne : c ≠ [] := by
      intro e
      rw [e, List.append_nil] at hc
      rw [hc] at hrow
      exact hnot hrow
    have hwne : writes ≠ [] := by
      intro e
      rw [e] at hw
      exact hcne (List.append_eq_nil.mp hw.symm).1
    have hall : (w.found.take k).map (markEvent processedLabelName) =
        w.found.map (markEvent processedLabelName) := by
      rw [List.take_of_length_le (hk hwne)]
    constructor
    · intro t ht
      rw [hc, hall]
      exact List.mem_append_left _ (List.mem_append_right _ (List.mem_map_of_mem _ ht))
    · intro e he
      have : isRow e = true := hwrites e (by rw [hw]; exact List.mem_append_right _ he)
      cases e <;> simp_all [isRow, isMark]

/-- C4 (as stated, refuted): in the run on `twoThreadWorld` with no fault there is a
point at which both conversations bear the marker and no data row has been written:
the marks come before the rows. -/
theorem marks_come_first :
    ∃ pre suf, (processMonthlyTransactions noFaults (start twoThreadWorld)).2.trace = pre ++ suf ∧
      (∀ t ∈ twoThreadWorld.found, markEvent processedLabelName t ∈ pre) ∧
      (∀ file row, Event.appendRow file row ∈ pre → row = headers) ∧
      (∃ file, ∀ t ∈ twoThreadWorld.found, Event.appendRow file (latestRow t) ∈ suf) := by
  obtain ⟨file, setup, -, htrace, hsetup, -, -⟩ :=
    run_noFaults_spec twoThreadWorld (by decide) (by decide) (by decide)
  refine ⟨_, _, htrace, ?_, ?_, file, ?_⟩
  · intro t ht
    exact List.mem_append_right _ (List.mem_map_of_mem _ ht)
  · intro f row hm
    rcases List.mem_append.mp hm with h | h
    · rcases List.mem_append.mp h with h | h
      · exact absurd rfl ((hsetup _ h).1 f row)
      · split_ifs at h
        · simp only [List.mem_singleton] at h
          injection h with _ h2
        · simp at h
    · obtain ⟨t, -, ht⟩ := List.mem_map.mp h
      exact Event.noConfusion ht
  · intro t ht
    exact List.mem_map_of_mem (fun t => Event.appendRow file (latestRow t)) ht

theorem marks_precede_rows_witness :
    (∀ t ∈ twoThreadWorld.found, markEvent processedLabelName t ∈
      (processMonthlyTransactions noFaults (start twoThreadWorld)).2.trace) ∧
    (∀ e ∈ ([] : List Event), isMark e = false) := by
  obtain ⟨file, setup, -, htrace, -, -, -⟩ :=
    run_noFaults_spec twoThreadWorld (by decide) (by decide) (by decide)
  exact marks_precede_rows noFaults twoThreadWorld _ [] (List.append_nil _).symm file
    (latestRow { id := 7, messages := [{ body := fullBody, subject := "a".data }] })
    (by
      rw [htrace]
      exact List.mem_append_right _ (List.mem_map_of_mem
        (fun t => Event.appendRow file (latestRow t)) (List.mem_cons_self _ _)))
    (by decide)

end Finanzas
